import Mathlib

/-!
Verification development for the libusb-to-WebUSB adaptor
(`src/third_party/libusb/webport/src/libusb-to-webusb-adaptor.js`).

The development shallowly embeds the three cores of the adaptor:

1. the USB descriptor extra-data extractor
   (`fetchAndFillConfigurationExtraDataForOpenedDevice`, `appendExtraData`),
2. the device registry (`updateDeviceMap_`, `getDeviceId_`),
3. the per-device handle coordinator (`openDeviceHandle`, `closeDeviceHandle`,
   `openWebusbDevice`) together with the uncoordinated open/close performed by
   `fetchAndFillConfigurationExtraData`, as a small-step scheduler semantics
   with one atomic step per synchronous block between `await` points.

Bytes are modeled as natural numbers, byte blobs as `List Nat`, and opaque
JavaScript object references as natural numbers with reference identity
modeled by equality.
-/

namespace LibusbToWebusbAdaptor

/-! ## Generic list helpers -/

/-- In-place update of the element at index `i` (used to model mutation of a
node inside the configuration tree; out-of-range indices leave the list
unchanged, mirroring that a dangling reference cannot occur). -/
def listModify : List α → Nat → (α → α) → List α
  | [], _, _ => []
  | x :: xs, 0, f => f x :: xs
  | x :: xs, n + 1, f => x :: listModify xs n f

theorem listModify_getElem? (l : List α) (i : Nat) (f : α → α) (j : Nat) :
    (listModify l i f)[j]? = if j = i then (l[j]?).map f else l[j]? := by
  induction l generalizing i j with
  | nil => simp [listModify]
  | cons x xs ih =>
    cases i with
    | zero =>
      cases j with
      | zero => simp [listModify]
      | succ j => simp [listModify]
    | succ i =>
      cases j with
      | zero => simp [listModify]
      | succ j =>
        simp only [listModify, List.getElem?_cons_succ, ih]
        by_cases h : j = i <;> simp [h]

theorem listModify_length (l : List α) (i : Nat) (f : α → α) :
    (listModify l i f).length = l.length := by
  induction l generalizing i with
  | nil => simp [listModify]
  | cons x xs ih =>
    cases i with
    | zero => simp [listModify]
    | succ i => simp [listModify, ih]

/-! ## Descriptor data model

`LibusbJsConfigurationDescriptor` / `LibusbJsInterfaceDescriptor` /
`LibusbJsEndpointDescriptor` from the source; only the fields that the
extra-data extractor reads (`configurationValue`, `interfaceNumber`,
`endpointAddress`) or writes (`extraData`) are modeled.  The `extraData`
field is absent (`none`) until `appendExtraData` first assigns it, exactly
as in the JavaScript objects. -/

structure LibusbJsEndpointDescriptor where
  endpointAddress : Nat
  extraData : Option (List Nat) := none
deriving DecidableEq

structure LibusbJsInterfaceDescriptor where
  interfaceNumber : Nat
  endpoints : List LibusbJsEndpointDescriptor
  extraData : Option (List Nat) := none
deriving DecidableEq

structure LibusbJsConfigurationDescriptor where
  active : Bool
  configurationValue : Nat
  interfaces : List LibusbJsInterfaceDescriptor
  extraData : Option (List Nat) := none
deriving DecidableEq

/-- Result of a WebUSB `controlTransferIn` call: a status string and an
optional `DataView`, modeled as a byte list. -/
structure WebusbTransferResult where
  status : String
  data : Option (List Nat)
deriving DecidableEq

/-- `DataView.getUint8`, total with default 0; every use below is guarded by
the walk's bounds checks, so the default is never consulted on the source's
reachable inputs. -/
def getUint8 (data : List Nat) (i : Nat) : Nat := data.getD i 0

/-- `DataView.getUint16(i, /*littleEndian=*/true)`; `none` models the
`RangeError` thrown when fewer than `i + 2` bytes are available. -/
def getUint16 (data : List Nat) (i : Nat) : Option Nat :=
  match data[i]?, data[i + 1]? with
  | some lo, some hi => some (lo + 256 * hi)
  | _, _ => none

def GET_DESCRIPTOR_REQUEST : Nat := 0x06
def CONFIGURATION_DESCRIPTOR_TYPE : Nat := 0x02
def INTERFACE_DESCRIPTOR_TYPE : Nat := 0x04
def ENDPOINT_DESCRIPTOR_TYPE : Nat := 0x05
def CONFIGURATION_DESCRIPTOR_LENGTH : Nat := 9
def INTERFACE_DESCRIPTOR_LENGTH : Nat := 9
def ENDPOINT_DESCRIPTOR_LENGTH : Nat := 7

/-- `appendExtraData`: read the old `extraData` (default empty), concatenate
the new bytes after it. The caller stores the result back into the node. -/
def appendExtraData (extraDataToAppend : List Nat) (oldExtraData : Option (List Nat)) :
    List Nat :=
  oldExtraData.getD [] ++ extraDataToAppend

/-- `targetObject = currentEndpoint || currentInterface || libusbJsConfiguration;
appendExtraData(bytes, targetObject)`.  The JavaScript "current" pointers are
object references into the tree; here they are the index of the current
interface in `interfaces` and the pair of indices of the current endpoint. -/
def appendExtraDataToTarget (cfg : LibusbJsConfigurationDescriptor)
    (currentInterface : Option Nat) (currentEndpoint : Option (Nat × Nat))
    (bytes : List Nat) : LibusbJsConfigurationDescriptor :=
  match currentEndpoint with
  | some (i, j) =>
    { cfg with
      interfaces := listModify cfg.interfaces i (fun itf =>
        { itf with
          endpoints := listModify itf.endpoints j (fun ep =>
            { ep with extraData := some (appendExtraData bytes ep.extraData) }) }) }
  | none =>
    match currentInterface with
    | some i =>
      { cfg with
        interfaces := listModify cfg.interfaces i (fun itf =>
          { itf with extraData := some (appendExtraData bytes itf.extraData) }) }
    | none =>
      { cfg with extraData := some (appendExtraData bytes cfg.extraData) }

/-- Interface-descriptor record handling: `libusbJsConfiguration['interfaces']
.find(itf => itf['interfaceNumber'] === interfaceNumber)`, as the index of the
first matching interface. -/
def findCurrentInterface (cfg : LibusbJsConfigurationDescriptor)
    (interfaceNumber : Nat) : Option Nat :=
  cfg.interfaces.findIdx? (fun itf => itf.interfaceNumber == interfaceNumber)

/-- Endpoint-descriptor record handling: look up, within the current interface
if any, the first endpoint whose `endpointAddress` matches; otherwise the
current endpoint becomes undefined. -/
def findCurrentEndpoint (cfg : LibusbJsConfigurationDescriptor)
    (currentInterface : Option Nat) (endpointAddress : Nat) :
    Option (Nat × Nat) :=
  match currentInterface with
  | some i =>
    match cfg.interfaces[i]? with
    | some itf =>
      (itf.endpoints.findIdx? (fun ep => ep.endpointAddress == endpointAddress)).map
        (fun j => (i, j))
    | none => none
  | none => none

/-- The descriptor walk (the `for (let offset = 0; offset < totalLength;)`
loop of `fetchAndFillConfigurationExtraDataForOpenedDevice`).  The loop
advances `offset` by at least 2 bytes per record, so the extra `fuel`
argument — always called with `fuel = totalLength` — never runs out before
the source loop exits; it only makes the recursion structural. -/
def walkDescriptors (descriptors : List Nat) (totalLength : Nat) :
    Nat → Nat → Option Nat → Option (Nat × Nat) →
    LibusbJsConfigurationDescriptor → LibusbJsConfigurationDescriptor
  | 0, _, _, _, cfg => cfg
  | fuel + 1, offset, currentInterface, currentEndpoint, cfg =>
    if offset < totalLength then
      let descriptorLength := getUint8 descriptors offset
      if descriptorLength < 2 then
        -- Malformed descriptor: bail out immediately.
        cfg
      else if totalLength < offset + descriptorLength then
        -- Truncated descriptor: ignore it and end the walk.
        cfg
      else
        let descriptorType := getUint8 descriptors (offset + 1)
        if descriptorType = CONFIGURATION_DESCRIPTOR_TYPE then
          -- Already represented by the root node (or too short): no-op.
          walkDescriptors descriptors totalLength fuel (offset + descriptorLength)
            currentInterface currentEndpoint cfg
        else if descriptorType = INTERFACE_DESCRIPTOR_TYPE then
          if descriptorLength < INTERFACE_DESCRIPTOR_LENGTH then
            walkDescriptors descriptors totalLength fuel (offset + descriptorLength)
              currentInterface currentEndpoint cfg
          else
            walkDescriptors descriptors totalLength fuel (offset + descriptorLength)
              (findCurrentInterface cfg (getUint8 descriptors (offset + 2)))
              none cfg
        else if descriptorType = ENDPOINT_DESCRIPTOR_TYPE then
          if descriptorLength < ENDPOINT_DESCRIPTOR_LENGTH then
            walkDescriptors descriptors totalLength fuel (offset + descriptorLength)
              currentInterface currentEndpoint cfg
          else
            walkDescriptors descriptors totalLength fuel (offset + descriptorLength)
              currentInterface
              (findCurrentEndpoint cfg currentInterface (getUint8 descriptors (offset + 2)))
              cfg
        else
          -- Unknown descriptor: append its raw bytes (header included) to the
          -- most nested current node.
          walkDescriptors descriptors totalLength fuel (offset + descriptorLength)
            currentInterface currentEndpoint
            (appendExtraDataToTarget cfg currentInterface currentEndpoint
              ((descriptors.drop offset).take descriptorLength))
    else cfg

/-- `fetchAndFillConfigurationExtraDataForOpenedDevice`, with the two
`controlTransferIn` results supplied by the environment (the device) in call
order.  `none` models an exception escaping the function — the only throw
site is `getUint16` on a header shorter than 4 bytes, which happens before
any tree mutation. -/
def fetchAndFillConfigurationExtraDataForOpenedDevice
    (transferResult1 transferResult2 : WebusbTransferResult)
    (libusbJsConfiguration : LibusbJsConfigurationDescriptor) :
    Option LibusbJsConfigurationDescriptor :=
  if transferResult1.status ≠ "ok" then some libusbJsConfiguration
  else
    match transferResult1.data with
    | none => some libusbJsConfiguration
    | some initialData =>
      match getUint16 initialData 2 with
      | none => none
      | some totalLength =>
        if transferResult2.status ≠ "ok" then some libusbJsConfiguration
        else
          match transferResult2.data with
          | none => some libusbJsConfiguration
          | some descriptors =>
            if descriptors.length ≠ totalLength then some libusbJsConfiguration
            else
              some (walkDescriptors descriptors totalLength totalLength 0
                none none libusbJsConfiguration)

/-- The `try`/`catch` around `fetchAndFillConfigurationExtraData` inside
`getConfigurations` (source lines 121–130): an escaping exception is
swallowed and the configuration is kept as it stood.  The one throw site is
reached before any mutation, so the caught tree is the input tree. -/
def fetchAndFillConfigurationExtraDataCaught
    (transferResult1 transferResult2 : WebusbTransferResult)
    (libusbJsConfiguration : LibusbJsConfigurationDescriptor) :
    LibusbJsConfigurationDescriptor :=
  (fetchAndFillConfigurationExtraDataForOpenedDevice transferResult1 transferResult2
    libusbJsConfiguration).getD libusbJsConfiguration

/-- True when no node of the configuration tree carries an `extraData` field. -/
def hasNoExtraData (cfg : LibusbJsConfigurationDescriptor) : Bool :=
  cfg.extraData.isNone &&
    cfg.interfaces.all (fun itf =>
      itf.extraData.isNone && itf.endpoints.all (fun ep => ep.extraData.isNone))

/-- Addresses of the nodes of a configuration tree. -/
inductive NodeLoc where
  | config
  | iface (i : Nat)
  | endp (i j : Nat)

/-- The extra-data bytes accumulated at a node (empty when the node does not
exist or carries no `extraData`). -/
def extraBytesAt (cfg : LibusbJsConfigurationDescriptor) : NodeLoc → List Nat
  | .config => cfg.extraData.getD []
  | .iface i =>
    match cfg.interfaces[i]? with
    | some itf => itf.extraData.getD []
    | none => []
  | .endp i j =>
    match cfg.interfaces[i]? with
    | some itf =>
      match itf.endpoints[j]? with
      | some ep => ep.extraData.getD []
      | none => []
    | none => []

theorem appendExtraDataToTarget_extends
    (cfg : LibusbJsConfigurationDescriptor) (ci : Option Nat)
    (ce : Option (Nat × Nat)) (bytes : List Nat) (loc : NodeLoc) :
    ∃ t, extraBytesAt (appendExtraDataToTarget cfg ci ce bytes) loc =
      extraBytesAt cfg loc ++ t := by
  match ce, loc with
  | some (i, j), .config =>
    exact ⟨[], by simp [appendExtraDataToTarget, extraBytesAt]⟩
  | some (i, j), .iface i' =>
    refine ⟨[], ?_⟩
    simp only [appendExtraDataToTarget, extraBytesAt, listModify_getElem?]
    by_cases h : i' = i
    · subst h; cases hx : cfg.interfaces[i']? <;> simp [hx]
    · cases hx : cfg.interfaces[i']? <;> simp [h, hx]
  | some (i, j), .endp i' j' =>
    simp only [appendExtraDataToTarget, extraBytesAt, listModify_getElem?]
    by_cases hi : i' = i
    · subst hi
      cases hx : cfg.interfaces[i']? with
      | none => exact ⟨[], by simp [hx]⟩
      | some itf =>
        by_cases hj : j' = j
        · subst hj
          cases he : itf.endpoints[j']? with
          | none => exact ⟨[], by simp [hx, he, listModify_getElem?]⟩
          | some ep =>
            exact ⟨bytes, by simp [hx, he, listModify_getElem?, appendExtraData]⟩
        · exact ⟨[], by simp [hx, hj, listModify_getElem?]⟩
    · exact ⟨[], by cases hx : cfg.interfaces[i']? <;> simp [hi, hx]⟩
  | none, loc =>
    match ci, loc with
    | some i, .config =>
      exact ⟨[], by simp [appendExtraDataToTarget, extraBytesAt]⟩
    | some i, .iface i' =>
      simp only [appendExtraDataToTarget, extraBytesAt, listModify_getElem?]
      by_cases h : i' = i
      · subst h
        cases hx : cfg.interfaces[i']? with
        | none => exact ⟨[], by simp [hx]⟩
        | some itf => exact ⟨bytes, by simp [hx, appendExtraData]⟩
      · exact ⟨[], by cases hx : cfg.interfaces[i']? <;> simp [h, hx]⟩
    | some i, .endp i' j' =>
      refine ⟨[], ?_⟩
      simp only [appendExtraDataToTarget, extraBytesAt, listModify_getElem?]
      by_cases h : i' = i
      · subst h
        cases hx : cfg.interfaces[i']? with
        | none => simp [hx]
        | some itf => cases he : itf.endpoints[j']? <;> simp [hx, he]
      · cases hx : cfg.interfaces[i']? <;> simp [h, hx]
    | none, .config =>
      exact ⟨bytes, by simp [appendExtraDataToTarget, extraBytesAt, appendExtraData]⟩
    | none, .iface i' =>
      exact ⟨[], by simp [appendExtraDataToTarget, extraBytesAt]⟩
    | none, .endp i' j' =>
      exact ⟨[], by simp [appendExtraDataToTarget, extraBytesAt]⟩

/-- Each node's extra data only ever grows by concatenation at the end during
the walk: the bytes present before any step remain an initial segment. -/
theorem walkDescriptors_extends (descriptors : List Nat) (totalLength : Nat) :
    ∀ (fuel offset : Nat) (ci : Option Nat) (ce : Option (Nat × Nat))
      (cfg : LibusbJsConfigurationDescriptor) (loc : NodeLoc),
      ∃ t, extraBytesAt
          (walkDescriptors descriptors totalLength fuel offset ci ce cfg) loc =
        extraBytesAt cfg loc ++ t := by
  intro fuel
  induction fuel with
  | zero => intro offset ci ce cfg loc; exact ⟨[], by simp [walkDescriptors]⟩
  | succ fuel ih =>
    intro offset ci ce cfg loc
    simp only [walkDescriptors]
    split
    · split
      · exact ⟨[], by simp⟩
      · split
        · exact ⟨[], by simp⟩
        · split
          · exact ih _ _ _ _ _
          · split
            · split
              · exact ih _ _ _ _ _
              · exact ih _ _ _ _ _
            · split
              · split
                · exact ih _ _ _ _ _
                · exact ih _ _ _ _ _
              · obtain ⟨t₁, ht₁⟩ := appendExtraDataToTarget_extends cfg ci ce
                  ((descriptors.drop offset).take (getUint8 descriptors offset)) loc
                obtain ⟨t₂, ht₂⟩ := ih (offset + getUint8 descriptors offset) ci ce
                  (appendExtraDataToTarget cfg ci ce
                    ((descriptors.drop offset).take (getUint8 descriptors offset))) loc
                exact ⟨t₁ ++ t₂, by rw [ht₂, ht₁, List.append_assoc]⟩
    · exact ⟨[], by simp⟩

/-- A record with declared length below 2 ends the walk at once, returning the
tree exactly as accumulated so far. -/
theorem walkDescriptors_malformed (descriptors : List Nat) (totalLength fuel offset : Nat)
    (ci : Option Nat) (ce : Option (Nat × Nat))
    (cfg : LibusbJsConfigurationDescriptor)
    (hlt : offset < totalLength) (hm : getUint8 descriptors offset < 2) :
    walkDescriptors descriptors totalLength (fuel + 1) offset ci ce cfg = cfg := by
  rw [walkDescriptors]
  simp [hlt, hm]

/-- A fetch-phase abort (bad status or missing data on either transfer, or a
length mismatch on the second) leaves the tree unchanged. -/
theorem fetch_abort_unchanged (r1 r2 : WebusbTransferResult)
    (cfg : LibusbJsConfigurationDescriptor)
    (habort : r1.status ≠ "ok" ∨ r1.data = none ∨ r2.status ≠ "ok" ∨ r2.data = none ∨
      (∃ d1 d2 tl, r1.data = some d1 ∧ r2.data = some d2 ∧
        getUint16 d1 2 = some tl ∧ d2.length ≠ tl)) :
    fetchAndFillConfigurationExtraDataCaught r1 r2 cfg = cfg := by
  obtain ⟨s1, d1⟩ := r1
  obtain ⟨s2, d2⟩ := r2
  simp only [fetchAndFillConfigurationExtraDataCaught,
    fetchAndFillConfigurationExtraDataForOpenedDevice]
  by_cases h1 : s1 = "ok"
  · subst h1
    cases d1 with
    | none => simp
    | some initialData =>
      simp only [ne_eq, not_true_eq_false, if_false, reduceCtorEq]
      cases h16 : getUint16 initialData 2 with
      | none => simp
      | some totalLength =>
        by_cases h2 : s2 = "ok"
        · subst h2
          cases d2 with
          | none => simp
          | some descriptors =>
            rcases habort with h | h | h | h | ⟨dd1, dd2, tl, hdd1, hdd2, htl, hne⟩
            · exact absurd rfl h
            · exact absurd h (by simp)
            · exact absurd rfl h
            · exact absurd h (by simp)
            · obtain rfl : dd1 = initialData := by
                injection hdd1 with h; exact h.symm
              obtain rfl : dd2 = descriptors := by
                injection hdd2 with h; exact h.symm
              obtain rfl : tl = totalLength := by
                rw [h16] at htl; injection htl with h; exact h.symm
              simp [hne]
        · simp [h2]
  · simp [h1]

/-- Claim C3 counterexample input: first transfer delivers a 9-byte header declaring
`totalLength = 4`; second transfer delivers a 4-byte blob consisting of one
3-byte unknown descriptor followed by a malformed record byte of declared
length 1. -/
def c3TransferResult1 : WebusbTransferResult := ⟨"ok", some [9, 2, 4, 0, 0, 0, 0, 0, 0]⟩

def c3TransferResult2 : WebusbTransferResult := ⟨"ok", some [3, 255, 170, 1]⟩

def c3Config : LibusbJsConfigurationDescriptor :=
  { active := true, configurationValue := 1, interfaces := [] }

/-- Counterexample to C3 as stated: extraction hits an internal failure — the
record at offset 3 has declared length 1 < 2, so the walk bails out — yet the
returned configuration tree DOES carry extra data (the unknown descriptor
processed before the malformed record was already appended in place and is not
rolled back).  So an internal failure partway through the walk does not
degrade to "no extra data attached". -/
theorem c3_partial_extra_data_counterexample :
    getUint8 [3, 255, 170, 1] 3 < 2 ∧
    (fetchAndFillConfigurationExtraDataCaught c3TransferResult1 c3TransferResult2
      c3Config).extraData = some [3, 255, 170] := by
  decide

/-- Claim C3, amended: every failure detected before the walk begins — a
non-ok status or missing data on EITHER transfer, a header too short to read
`totalLength` (the thrown `RangeError`), or a byte count differing from
`totalLength` — attaches no extra data (first and third conjuncts); a
malformed record (declared length < 2) encountered mid-walk terminates the
walk immediately with the tree exactly as accumulated so far — extra data
appended for records processed before the malformed one remains attached
(second conjunct); and an exception escaping the fetch is swallowed by
`getConfigurations`, which keeps the configuration, so no failure is
surfaced to its caller (third conjunct). -/
theorem c3_failure_handling :
    (∀ (r1 r2 : WebusbTransferResult) (cfg : LibusbJsConfigurationDescriptor),
      r1.status ≠ "ok" ∨ r1.data = none ∨ r2.status ≠ "ok" ∨ r2.data = none ∨
        (∃ d1 d2 tl, r1.data = some d1 ∧ r2.data = some d2 ∧
          getUint16 d1 2 = some tl ∧ d2.length ≠ tl) →
      fetchAndFillConfigurationExtraDataCaught r1 r2 cfg = cfg) ∧
    (∀ (descriptors : List Nat) (totalLength fuel offset : Nat) (ci : Option Nat)
      (ce : Option (Nat × Nat)) (cfg : LibusbJsConfigurationDescriptor),
      offset < totalLength → getUint8 descriptors offset < 2 →
      walkDescriptors descriptors totalLength (fuel + 1) offset ci ce cfg = cfg) ∧
    (∀ (r1 r2 : WebusbTransferResult) (cfg : LibusbJsConfigurationDescriptor),
      fetchAndFillConfigurationExtraDataForOpenedDevice r1 r2 cfg = none →
      fetchAndFillConfigurationExtraDataCaught r1 r2 cfg = cfg) := by
  refine ⟨?_, ?_, ?_⟩
  · intro r1 r2 cfg h
    exact fetch_abort_unchanged r1 r2 cfg h
  · intro descriptors totalLength fuel offset ci ce cfg hlt hm
    exact walkDescriptors_malformed descriptors totalLength fuel offset ci ce cfg hlt hm
  · intro r1 r2 cfg h
    simp [fetchAndFillConfigurationExtraDataCaught, h]

/-- Witness for `c3_failure_handling` at concrete inputs: a byte-count
mismatch on the second transfer (header declares `totalLength` 4, the second
transfer returns 3 bytes), a malformed first record, and a header too short
for `getUint16`. -/
theorem c3_failure_handling_witness :
    (fetchAndFillConfigurationExtraDataCaught ⟨"ok", some [9, 2, 4, 0, 0, 0, 0, 0, 0]⟩
      ⟨"ok", some [0, 0, 0]⟩ c3Config = c3Config) ∧
    (walkDescriptors [1] 1 1 0 none none c3Config = c3Config) ∧
    (fetchAndFillConfigurationExtraDataCaught ⟨"ok", some [1, 2]⟩ ⟨"ok", none⟩ c3Config =
      c3Config) :=
  ⟨c3_failure_handling.1 ⟨"ok", some [9, 2, 4, 0, 0, 0, 0, 0, 0]⟩ ⟨"ok", some [0, 0, 0]⟩
      c3Config
      (Or.inr (Or.inr (Or.inr (Or.inr
        ⟨[9, 2, 4, 0, 0, 0, 0, 0, 0], [0, 0, 0], 4, rfl, rfl, by decide, by decide⟩)))),
   c3_failure_handling.2.1 [1] 1 0 0 none none c3Config (by decide) (by decide),
   c3_failure_handling.2.2 ⟨"ok", some [1, 2]⟩ ⟨"ok", none⟩ c3Config (by decide)⟩

/-- Claim C4: if either `GET_DESCRIPTOR` control transfer reports a non-ok status or
returns no data, or the second transfer's byte count differs from the
`totalLength` read from the header, extraction aborts before the walk begins
and the configuration tree the caller sees is byte-for-byte unchanged. -/
theorem c4_fetch_abort_no_mutation (r1 r2 : WebusbTransferResult)
    (cfg : LibusbJsConfigurationDescriptor)
    (habort : r1.status ≠ "ok" ∨ r1.data = none ∨ r2.status ≠ "ok" ∨ r2.data = none ∨
      (∃ d1 d2 tl, r1.data = some d1 ∧ r2.data = some d2 ∧
        getUint16 d1 2 = some tl ∧ d2.length ≠ tl)) :
    fetchAndFillConfigurationExtraDataCaught r1 r2 cfg = cfg :=
  fetch_abort_unchanged r1 r2 cfg habort

/-- Witness for `c4_fetch_abort_no_mutation`: a stalled second transfer. -/
theorem c4_fetch_abort_no_mutation_witness :
    fetchAndFillConfigurationExtraDataCaught ⟨"ok", some [9, 2, 4, 0, 0, 0, 0, 0, 0]⟩
      ⟨"stall", some [0, 0, 0, 0]⟩ c3Config = c3Config :=
  c4_fetch_abort_no_mutation ⟨"ok", some [9, 2, 4, 0, 0, 0, 0, 0, 0]⟩
    ⟨"stall", some [0, 0, 0, 0]⟩ c3Config (Or.inr (Or.inr (Or.inl (by decide))))

/-- Claim C5 synthetic blob: configuration (9 bytes, `totalLength` = 29), interface
(9 bytes, `interfaceNumber` = 0), endpoint (7 bytes, `endpointAddress` =
0x81), unknown descriptor (4 bytes, type 0xFF). -/
def c5Blob : List Nat :=
  [9, 2, 29, 0, 1, 1, 0, 0, 0] ++
  [9, 4, 0, 0, 0, 0, 0, 0, 0] ++
  [7, 5, 0x81, 0, 0, 0, 0] ++
  [4, 0xFF, 0xAA, 0xBB]

def c5Config : LibusbJsConfigurationDescriptor :=
  { active := true, configurationValue := 1,
    interfaces := [{ interfaceNumber := 0,
                     endpoints := [{ endpointAddress := 0x81 }] }] }

/-- Claim C5: during the walk, unknown-type records are appended (full raw bytes,
header included) to the most specific current node, and appends at any one
node only ever extend that node's existing bytes at the end — in
blob-traversal order, never reordered or merged (first conjunct).  On the
synthetic blob [configuration, interface 0, endpoint 0x81, 4 extra bytes of
type 0xFF], the 4 extra bytes attach to the endpoint node with address 0x81
and to no other node (second conjunct). -/
theorem c5_extra_data_attachment :
    (∀ (descriptors : List Nat) (totalLength fuel offset : Nat) (ci : Option Nat)
      (ce : Option (Nat × Nat)) (cfg : LibusbJsConfigurationDescriptor)
      (loc : NodeLoc),
      ∃ t, extraBytesAt
          (walkDescriptors descriptors totalLength fuel offset ci ce cfg) loc =
        extraBytesAt cfg loc ++ t) ∧
    fetchAndFillConfigurationExtraDataCaught ⟨"ok", some [9, 2, 29, 0, 1, 1, 0, 0, 0]⟩
        ⟨"ok", some c5Blob⟩ c5Config =
      { active := true, configurationValue := 1,
        interfaces := [{ interfaceNumber := 0,
                         endpoints := [{ endpointAddress := 0x81,
                                         extraData := some [4, 0xFF, 0xAA, 0xBB] }],
                         extraData := none }],
        extraData := none } := by
  constructor
  · intro descriptors totalLength fuel offset ci ce cfg loc
    exact walkDescriptors_extends descriptors totalLength fuel offset ci ce cfg loc
  · decide

/-- Claim C6: a record whose declared length byte is below 2 terminates the walk
immediately at that record, returning the accumulated tree (first conjunct);
when such a record opens the blob, the walk ends with zero extra data attached
anywhere (second conjunct). -/
theorem c6_malformed_length_guard :
    (∀ (descriptors : List Nat) (totalLength fuel offset : Nat) (ci : Option Nat)
      (ce : Option (Nat × Nat)) (cfg : LibusbJsConfigurationDescriptor),
      offset < totalLength → getUint8 descriptors offset < 2 →
      walkDescriptors descriptors totalLength (fuel + 1) offset ci ce cfg = cfg) ∧
    (∀ (descriptors : List Nat) (totalLength : Nat)
      (cfg : LibusbJsConfigurationDescriptor),
      0 < totalLength → getUint8 descriptors 0 < 2 → hasNoExtraData cfg = true →
      hasNoExtraData
        (walkDescriptors descriptors totalLength totalLength 0 none none cfg) = true) := by
  constructor
  · intro descriptors totalLength fuel offset ci ce cfg hlt hm
    exact walkDescriptors_malformed descriptors totalLength fuel offset ci ce cfg hlt hm
  · intro descriptors totalLength cfg hpos hm hclean
    obtain ⟨t, rfl⟩ : ∃ t, totalLength = t + 1 :=
      ⟨totalLength - 1, by omega⟩
    rw [walkDescriptors_malformed descriptors (t + 1) t 0 none none cfg hpos hm]
    exact hclean

/-- Witness for `c6_malformed_length_guard` at a concrete malformed blob. -/
theorem c6_malformed_length_guard_witness :
    (walkDescriptors [1, 9, 9] 3 3 0 none none c3Config = c3Config) ∧
    hasNoExtraData (walkDescriptors [1, 9, 9] 3 3 0 none none c3Config) = true :=
  ⟨c6_malformed_length_guard.1 [1, 9, 9] 3 2 0 none none c3Config (by decide) (by decide),
   c6_malformed_length_guard.2 [1, 9, 9] 3 c3Config (by decide) (by decide) (by decide)⟩

/-! ## Device registry

`updateDeviceMap_`, `getDeviceId_` and the `idToDeviceMap_` / `nextFreeDeviceId_`
fields of `LibusbToWebusbAdaptor`.  A WebUSB `USBDevice` object is an opaque
reference compared by identity (`===`); it is modeled as a natural number
compared by equality.  A JavaScript `Map` preserves insertion order and has
unique keys; it is modeled as an ordered association list. -/

structure DeviceState where
  webusbDevice : Nat
deriving DecidableEq

structure AdaptorState where
  idToDeviceMap : List (Nat × DeviceState)
  nextFreeDeviceId : Nat
deriving DecidableEq

/-- `Map.get`. -/
def mapGet (m : List (Nat × DeviceState)) (k : Nat) : Option DeviceState :=
  (m.find? (fun e => e.1 == k)).map (fun e => e.2)

/-- `Map.set`: overwrite the entry with the given key, or append a new entry. -/
def mapSet (m : List (Nat × DeviceState)) (k : Nat) (v : DeviceState) :
    List (Nat × DeviceState) :=
  if m.any (fun e => e.1 == k) then
    m.map (fun e => if e.1 == k then (k, v) else e)
  else m ++ [(k, v)]

/-- `getDeviceId_`: iterate over the map in insertion order and return the
first key whose `DeviceState` holds this `USBDevice` reference.  (With unique
keys, iterating keys and calling `Map.get` is the same as scanning entries.) -/
def getDeviceIdOfMap (m : List (Nat × DeviceState)) (webusbDevice : Nat) : Option Nat :=
  (m.find? (fun e => e.2.webusbDevice == webusbDevice)).map (fun e => e.1)

def getDeviceId_ (st : AdaptorState) (webusbDevice : Nat) : Option Nat :=
  getDeviceIdOfMap st.idToDeviceMap webusbDevice

/-- The loop body of `updateDeviceMap_`: the lookups go against the OLD map
(`st.idToDeviceMap`), the entries accumulate into the fresh `newIdToDeviceMap`,
and `nextFreeDeviceId_` advances for each newly seen device. -/
def updateDeviceMapGo (st : AdaptorState) :
    List Nat → List (Nat × DeviceState) → Nat → List (Nat × DeviceState) × Nat
  | [], newIdToDeviceMap, nextFreeDeviceId => (newIdToDeviceMap, nextFreeDeviceId)
  | webusbDevice :: rest, newIdToDeviceMap, nextFreeDeviceId =>
    match getDeviceId_ st webusbDevice with
    | none =>
      -- A new device: generate new ID and state for it.
      updateDeviceMapGo st rest
        (mapSet newIdToDeviceMap nextFreeDeviceId ⟨webusbDevice⟩)
        (nextFreeDeviceId + 1)
    | some chosenDeviceId =>
      -- An already-tracked device: reuse its ID and state.
      match mapGet st.idToDeviceMap chosenDeviceId with
      | some deviceState =>
        updateDeviceMapGo st rest
          (mapSet newIdToDeviceMap chosenDeviceId deviceState) nextFreeDeviceId
      | none =>
        -- Unreachable: `getDeviceId_` found this key in the map.
        updateDeviceMapGo st rest newIdToDeviceMap nextFreeDeviceId

/-- `updateDeviceMap_`: rebuild the map from the enumeration snapshot; devices
absent from the snapshot are dropped. -/
def updateDeviceMap_ (st : AdaptorState) (webusbDevices : List Nat) : AdaptorState :=
  { idToDeviceMap := (updateDeviceMapGo st webusbDevices [] st.nextFreeDeviceId).1,
    nextFreeDeviceId := (updateDeviceMapGo st webusbDevices [] st.nextFreeDeviceId).2 }

/-- A sequence of further enumerations. -/
def applySnapshots (st : AdaptorState) : List (List Nat) → AdaptorState
  | [] => st
  | ws :: rest => applySnapshots (updateDeviceMap_ st ws) rest

/-- A JavaScript `Map` has unique keys. -/
def KeysNodup (st : AdaptorState) : Prop :=
  (st.idToDeviceMap.map Prod.fst).Nodup

/-- Every key was allocated below the counter. -/
def KeysBound (st : AdaptorState) : Prop :=
  ∀ e ∈ st.idToDeviceMap, e.1 < st.nextFreeDeviceId

theorem find?_eq_of_unique (p : α → Bool) (l : List α) (a : α)
    (hmem : a ∈ l) (hpa : p a = true)
    (huniq : ∀ e ∈ l, p e = true → e = a) : l.find? p = some a := by
  induction l with
  | nil => cases hmem
  | cons x xs ih =>
    by_cases hpx : p x = true
    · have hxa : x = a := huniq x (List.mem_cons_self _ _) hpx
      subst hxa
      simp [List.find?, hpa]
    · have hax : a ∈ xs := by
        cases List.mem_cons.mp hmem with
        | inl h => exact absurd (h ▸ hpa) hpx
        | inr h => exact h
      rw [List.find?]
      rw [Bool.not_eq_true] at hpx
      rw [hpx]
      exact ih hax (fun e he hpe => huniq e (List.mem_cons_of_mem _ he) hpe)

theorem entries_key_unique {m : List (Nat × DeviceState)}
    (h : (m.map Prod.fst).Nodup) {k : Nat} {v1 v2 : DeviceState}
    (h1 : (k, v1) ∈ m) (h2 : (k, v2) ∈ m) : v1 = v2 := by
  induction m with
  | nil => cases h1
  | cons e rest ih =>
    rw [List.map_cons, List.nodup_cons] at h
    cases List.mem_cons.mp h1 with
    | inl hh1 =>
      cases List.mem_cons.mp h2 with
      | inl hh2 => rw [← hh1] at hh2; exact (Prod.mk.injEq _ _ _ _ ▸ hh2).2.symm
      | inr hh2 =>
        exact absurd (List.mem_map_of_mem Prod.fst hh2)
          (by rw [← hh1] at h; exact h.1)
    | inr hh1 =>
      cases List.mem_cons.mp h2 with
      | inl hh2 =>
        exact absurd (List.mem_map_of_mem Prod.fst hh1)
          (by rw [← hh2] at h; exact h.1)
      | inr hh2 => exact ih h.2 hh1 hh2

theorem getDeviceIdOfMap_spec {m : List (Nat × DeviceState)} {w id : Nat}
    (h : getDeviceIdOfMap m w = some id) :
    ∃ d, (id, d) ∈ m ∧ d.webusbDevice = w := by
  simp only [getDeviceIdOfMap, Option.map_eq_some'] at h
  obtain ⟨e, hfind, hid⟩ := h
  refine ⟨e.2, ?_, ?_⟩
  · have := List.mem_of_find?_eq_some hfind
    rwa [← hid]
  · simpa using List.find?_some hfind

theorem mapGet_mem {m : List (Nat × DeviceState)} {k : Nat} {d : DeviceState}
    (h : mapGet m k = some d) : (k, d) ∈ m := by
  simp only [mapGet, Option.map_eq_some'] at h
  obtain ⟨e, hfind, hd⟩ := h
  have hmem := List.mem_of_find?_eq_some hfind
  have hk : e.1 = k := by simpa using List.find?_some hfind
  have : e = (k, d) := by
    cases e
    simp only [Prod.mk.injEq]
    exact ⟨hk, hd⟩
  rwa [← this]

theorem mapGet_isSome_of_mem {m : List (Nat × DeviceState)} {k : Nat}
    {d : DeviceState} (h : (k, d) ∈ m) : ∃ d', mapGet m k = some d' := by
  have : (m.find? (fun e => e.1 == k)).isSome := by
    rw [List.find?_isSome]
    exact ⟨(k, d), h, by simp⟩
  obtain ⟨e, he⟩ := Option.isSome_iff_exists.mp this
  exact ⟨e.2, by simp [mapGet, he]⟩

/-- With unique keys, reusing the identifier found for `w` also carries over
the device state holding `w`. -/
theorem carried_state_ref {m : List (Nat × DeviceState)} {w id : Nat}
    {d : DeviceState} (hnd : (m.map Prod.fst).Nodup)
    (hfind : getDeviceIdOfMap m w = some id) (hget : mapGet m id = some d) :
    d.webusbDevice = w := by
  obtain ⟨d0, hmem0, href⟩ := getDeviceIdOfMap_spec hfind
  have := entries_key_unique hnd (mapGet_mem hget) hmem0
  rw [this]; exact href

theorem mem_mapSet {m : List (Nat × DeviceState)} {k : Nat} {v : DeviceState}
    {e : Nat × DeviceState} (h : e ∈ mapSet m k v) :
    e = (k, v) ∨ (e ∈ m ∧ e.1 ≠ k) := by
  simp only [mapSet] at h
  split at h
  · obtain ⟨e0, he0, heq⟩ := List.mem_map.mp h
    by_cases hk : e0.1 = k
    · left; rw [← heq]; simp [hk]
    · right
      constructor
      · rw [← heq]; simp [hk]; exact he0
      · rw [← heq]; simp [hk]
  · cases List.mem_append.mp h with
    | inl hm =>
      right
      refine ⟨hm, ?_⟩
      intro hk
      rename_i hany
      rw [List.any_eq_true] at hany
      exact hany ⟨e, hm, by simp [hk]⟩
    | inr hm => left; simpa using hm

theorem mem_mapSet_of_ne {m : List (Nat × DeviceState)} {k : Nat} {v : DeviceState}
    {e : Nat × DeviceState} (hm : e ∈ m) (hk : e.1 ≠ k) : e ∈ mapSet m k v := by
  simp only [mapSet]
  split
  · refine List.mem_map.mpr ⟨e, hm, ?_⟩
    simp [hk]
  · exact List.mem_append_left _ hm

theorem mapSet_self (m : List (Nat × DeviceState)) (k : Nat) (v : DeviceState) :
    (k, v) ∈ mapSet m k v := by
  simp only [mapSet]
  split
  · rename_i hany
    rw [List.any_eq_true] at hany
    obtain ⟨e, he, hek⟩ := hany
    refine List.mem_map.mpr ⟨e, he, ?_⟩
    simp at hek
    simp [hek]
  · exact List.mem_append_right _ (by simp)

/-- Main stability lemma for the reconcile loop: once an entry `(id, d)` for
`w` is (or will be) placed in the new map, and every other entry placed can
never hold `w` or the key `id`, the final lookup of `w` yields `id`. -/
theorem updateDeviceMapGo_stable (st : AdaptorState) (w id : Nat) (d : DeviceState)
    (hnd : KeysNodup st) (hid : id < st.nextFreeDeviceId)
    (hfind : getDeviceId_ st w = some id)
    (hget : mapGet st.idToDeviceMap id = some d) :
    ∀ (ws : List Nat) (newMap : List (Nat × DeviceState)) (ctr : Nat),
      st.nextFreeDeviceId ≤ ctr →
      (∀ e ∈ newMap, e.2.webusbDevice = w → e = (id, d)) →
      (∀ e ∈ newMap, e.1 = id → e = (id, d)) →
      ((id, d) ∈ newMap ∨ w ∈ ws) →
      getDeviceIdOfMap (updateDeviceMapGo st ws newMap ctr).1 w = some id := by
  have hd : d.webusbDevice = w := carried_state_ref hnd hfind hget
  intro ws
  induction ws with
  | nil =>
    intro newMap ctr hctr hP1 hP2 hex
    have hmem : (id, d) ∈ newMap := by
      cases hex with
      | inl h => exact h
      | inr h => cases h
    simp only [updateDeviceMapGo, getDeviceIdOfMap]
    rw [find?_eq_of_unique (fun e => e.2.webusbDevice == w) newMap (id, d) hmem
      (by simp [hd]) (fun e he hpe => hP1 e he (by simpa using hpe))]
    rfl
  | cons x rest ih =>
    intro newMap ctr hctr hP1 hP2 hex
    rw [updateDeviceMapGo]
    cases hx : getDeviceId_ st x with
    | none =>
      have hxw : x ≠ w := by
        intro h; rw [h, hfind] at hx; cases hx
      refine ih (mapSet newMap ctr ⟨x⟩) (ctr + 1) (by omega) ?_ ?_ ?_
      · intro e he href
        cases mem_mapSet he with
        | inl h => rw [h] at href; exact absurd href hxw
        | inr h => exact hP1 e h.1 href
      · intro e he hek
        cases mem_mapSet he with
        | inl h => rw [h] at hek; simp at hek; omega
        | inr h => exact hP2 e h.1 hek
      · cases hex with
        | inl h => exact Or.inl (mem_mapSet_of_ne h (by simp; omega))
        | inr h =>
          cases List.mem_cons.mp h with
          | inl hh => exact absurd hh.symm hxw
          | inr hh => exact Or.inr hh
    | some cid =>
      obtain ⟨d0, hmem0, _⟩ := getDeviceIdOfMap_spec hx
      obtain ⟨dx, hdx⟩ := mapGet_isSome_of_mem hmem0
      dsimp only
      rw [hdx]
      have hdxref : dx.webusbDevice = x := carried_state_ref hnd hx hdx
      by_cases hxw : x = w
      · subst hxw
        have hcid : cid = id := by rw [hfind] at hx; injection hx with h; exact h.symm
        subst hcid
        have hdxd : dx = d := by rw [hget] at hdx; injection hdx with h; exact h.symm
        subst hdxd
        refine ih (mapSet newMap cid dx) ctr hctr ?_ ?_ (Or.inl (mapSet_self _ _ _))
        · intro e he href
          cases mem_mapSet he with
          | inl h => exact h
          | inr h => exact hP1 e h.1 href
        · intro e he hek
          cases mem_mapSet he with
          | inl h => exact h
          | inr h => exact hP2 e h.1 hek
      · have hcid : cid ≠ id := by
          intro h
          subst h
          have : dx = d := by rw [hget] at hdx; injection hdx with h; exact h.symm
          rw [this, hd] at hdxref
          exact hxw hdxref.symm
        refine ih (mapSet newMap cid dx) ctr hctr ?_ ?_ ?_
        · intro e he href
          cases mem_mapSet he with
          | inl h =>
            rw [h] at href
            exact absurd href (by simpa [hdxref] using hxw)
          | inr h => exact hP1 e h.1 href
        · intro e he hek
          cases mem_mapSet he with
          | inl h => rw [h] at hek; exact absurd hek hcid
          | inr h => exact hP2 e h.1 hek
        · cases hex with
          | inl h => exact Or.inl (mem_mapSet_of_ne h (by simpa using hcid.symm))
          | inr h =>
            cases List.mem_cons.mp h with
            | inl hh => exact absurd hh.symm hxw
            | inr hh => exact Or.inr hh

/-- Every key of the reconciled map is either already accumulated, reused from
a device found in the snapshot, or freshly allocated at or above `ctr`. -/
theorem updateDeviceMapGo_keys (st : AdaptorState) :
    ∀ (ws : List Nat) (newMap : List (Nat × DeviceState)) (ctr k : Nat),
      k ∈ (updateDeviceMapGo st ws newMap ctr).1.map Prod.fst →
      k ∈ newMap.map Prod.fst ∨ (∃ x ∈ ws, getDeviceId_ st x = some k) ∨ ctr ≤ k := by
  intro ws
  induction ws with
  | nil =>
    intro newMap ctr k h
    exact Or.inl h
  | cons x rest ih =>
    intro newMap ctr k h
    rw [updateDeviceMapGo] at h
    cases hx : getDeviceId_ st x with
    | none =>
      rw [hx] at h
      dsimp only at h
      rcases ih _ _ _ h with hk | ⟨y, hy, hgy⟩ | hk
      · obtain ⟨e, he, hek⟩ := List.mem_map.mp hk
        cases mem_mapSet he with
        | inl hh => right; right; rw [← hek, hh]
        | inr hh => exact Or.inl (List.mem_map.mpr ⟨e, hh.1, hek⟩)
      · exact Or.inr (Or.inl ⟨y, List.mem_cons_of_mem _ hy, hgy⟩)
      · right; right; omega
    | some cid =>
      rw [hx] at h
      dsimp only at h
      cases hdx : mapGet st.idToDeviceMap cid with
      | none =>
        rw [hdx] at h
        dsimp only at h
        rcases ih _ _ _ h with hk | ⟨y, hy, hgy⟩ | hk
        · exact Or.inl hk
        · exact Or.inr (Or.inl ⟨y, List.mem_cons_of_mem _ hy, hgy⟩)
        · exact Or.inr (Or.inr hk)
      | some dx =>
        rw [hdx] at h
        dsimp only at h
        rcases ih _ _ _ h with hk | ⟨y, hy, hgy⟩ | hk
        · obtain ⟨e, he, hek⟩ := List.mem_map.mp hk
          cases mem_mapSet he with
          | inl hh =>
            right; left
            exact ⟨x, List.mem_cons_self _ _, by rw [hx, ← hek, hh]⟩
          | inr hh => exact Or.inl (List.mem_map.mpr ⟨e, hh.1, hek⟩)
        · exact Or.inr (Or.inl ⟨y, List.mem_cons_of_mem _ hy, hgy⟩)
        · exact Or.inr (Or.inr hk)

theorem updateDeviceMapGo_ctr_le (st : AdaptorState) :
    ∀ (ws : List Nat) (newMap : List (Nat × DeviceState)) (ctr : Nat),
      ctr ≤ (updateDeviceMapGo st ws newMap ctr).2 := by
  intro ws
  induction ws with
  | nil => intro newMap ctr; exact Nat.le_refl _
  | cons x rest ih =>
    intro newMap ctr
    rw [updateDeviceMapGo]
    cases hx : getDeviceId_ st x with
    | none => exact Nat.le_trans (by omega) (ih _ (ctr + 1))
    | some cid =>
      dsimp only
      cases hdx : mapGet st.idToDeviceMap cid with
      | none => exact ih _ ctr
      | some dx => exact ih _ ctr

/-- A deviceId that is absent from the map and below the counter never comes
back in any later reconcile. -/
theorem dropped_id_stays_dropped (st' : AdaptorState) (ws' : List Nat) (id : Nat)
    (hnk : id ∉ st'.idToDeviceMap.map Prod.fst) (hlt : id < st'.nextFreeDeviceId) :
    id ∉ (updateDeviceMap_ st' ws').idToDeviceMap.map Prod.fst ∧
      id < (updateDeviceMap_ st' ws').nextFreeDeviceId := by
  constructor
  · intro hk
    rcases updateDeviceMapGo_keys st' ws' [] st'.nextFreeDeviceId id hk with
      h | ⟨x, _, hgx⟩ | h
    · simp at h
    · obtain ⟨d0, hmem0, _⟩ := getDeviceIdOfMap_spec hgx
      exact hnk (List.mem_map.mpr ⟨(id, d0), hmem0, rfl⟩)
    · omega
  · exact Nat.lt_of_lt_of_le hlt (updateDeviceMapGo_ctr_le st' ws' [] _)

theorem applySnapshots_dropped (wss : List (List Nat)) :
    ∀ (st' : AdaptorState) (id : Nat),
      id ∉ st'.idToDeviceMap.map Prod.fst → id < st'.nextFreeDeviceId →
      id ∉ (applySnapshots st' wss).idToDeviceMap.map Prod.fst := by
  induction wss with
  | nil => intro st' id h _; exact h
  | cons ws rest ih =>
    intro st' id hnk hlt
    obtain ⟨h1, h2⟩ := dropped_id_stays_dropped st' ws id hnk hlt
    exact ih _ id h1 h2

/-- Claim C7: across consecutive enumerations, a host device present in the old
registry and in the new snapshot keeps its deviceId (first conjunct); a host
device absent from the new snapshot is dropped, and its deviceId fails every
lookup after that reconcile and after arbitrarily many further reconciles
(second conjunct). -/
theorem c7_reconcile_identity :
    (∀ (st : AdaptorState) (ws : List Nat) (w id : Nat),
      KeysNodup st → KeysBound st → getDeviceId_ st w = some id → w ∈ ws →
      getDeviceId_ (updateDeviceMap_ st ws) w = some id) ∧
    (∀ (st : AdaptorState) (ws : List Nat) (wss : List (List Nat)) (w id : Nat),
      KeysNodup st → KeysBound st → getDeviceId_ st w = some id → w ∉ ws →
      mapGet (applySnapshots (updateDeviceMap_ st ws) wss).idToDeviceMap id = none) := by
  constructor
  · intro st ws w id hnd hbd hfind hw
    obtain ⟨d0, hmem0, _⟩ := getDeviceIdOfMap_spec hfind
    have hid : id < st.nextFreeDeviceId := hbd _ hmem0
    obtain ⟨d, hget⟩ := mapGet_isSome_of_mem hmem0
    exact updateDeviceMapGo_stable st w id d hnd hid hfind hget ws []
      st.nextFreeDeviceId (Nat.le_refl _) (by simp) (by simp) (Or.inr hw)
  · intro st ws wss w id hnd hbd hfind hnw
    obtain ⟨dw, hmemw, hrefw⟩ := getDeviceIdOfMap_spec hfind
    have hid : id < st.nextFreeDeviceId := hbd _ hmemw
    have h1 : id ∉ (updateDeviceMap_ st ws).idToDeviceMap.map Prod.fst := by
      intro hk
      rcases updateDeviceMapGo_keys st ws [] st.nextFreeDeviceId id hk with
        h | ⟨x, hxmem, hgx⟩ | h
      · simp at h
      · obtain ⟨dx, hmemx, hrefx⟩ := getDeviceIdOfMap_spec hgx
        have : dx = dw := entries_key_unique hnd hmemx hmemw
        rw [this, hrefw] at hrefx
        exact hnw (hrefx ▸ hxmem)
      · omega
    have h2 : id < (updateDeviceMap_ st ws).nextFreeDeviceId :=
      Nat.lt_of_lt_of_le hid (updateDeviceMapGo_ctr_le st ws [] _)
    have h3 := applySnapshots_dropped wss _ id h1 h2
    simp only [mapGet, Option.map_eq_none']
    rw [List.find?_eq_none]
    intro e he
    simp only [beq_iff_eq]
    intro hek
    exact h3 (List.mem_map.mpr ⟨e, he, hek⟩)

/-- Witness for `c7_reconcile_identity`: a registry with devices 10 and 20;
the next snapshot contains only device 20, so device 20 keeps id 2 and
device 10's id 1 fails lookups across two further snapshots. -/
theorem c7_reconcile_identity_witness :
    (getDeviceId_ (updateDeviceMap_
        ⟨[(1, ⟨10⟩), (2, ⟨20⟩)], 3⟩ [20]) 20 = some 2) ∧
    (mapGet (applySnapshots (updateDeviceMap_
        ⟨[(1, ⟨10⟩), (2, ⟨20⟩)], 3⟩ [20]) [[20, 30], [30]]).idToDeviceMap 1 = none) :=
  ⟨c7_reconcile_identity.1 ⟨[(1, ⟨10⟩), (2, ⟨20⟩)], 3⟩ [20] 20 2
      (by unfold KeysNodup; decide) (by unfold KeysBound; decide) (by decide) (by decide),
   c7_reconcile_identity.2 ⟨[(1, ⟨10⟩), (2, ⟨20⟩)], 3⟩ [20] [[20, 30], [30]] 10 1
      (by unfold KeysNodup; decide) (by unfold KeysBound; decide) (by decide) (by decide)⟩

/-! ## Handle coordinator: cooperative small-step semantics

One device (operations on distinct devices touch disjoint state, so the
per-device guarantees are stated on a single device's state).  Each in-flight
request is a task; a task advances by one atomic step per synchronous block,
suspending exactly at the `await` points of the source.  Promises live in a
store indexed by allocation order; the promises of host `open()`/`close()`
calls are settled by environment steps with an arbitrary outcome, while the
promise of `openWebusbDevice` is settled by that task itself.  The scheduler
(which task or host completion fires next) is an arbitrary label sequence,
over-approximating the JavaScript microtask queue. -/

inductive JsOutcome where
  | success
  | failure (e : Nat)
deriving DecidableEq

inductive PromState where
  | pending
  | settled (o : JsOutcome)
deriving DecidableEq

/-- Errors observable from a request: the synchronous `throw new Error(...)`
for an unknown handle, or a rejected host promise carrying code `e`. -/
inductive JsErr where
  | unknownHandle (h : Nat)
  | hostErr (e : Nat)
deriving DecidableEq

/-- Task states.  `oh*` is an `openDeviceHandle` call, `ch*` a
`closeDeviceHandle` call, `ow*` the `openWebusbDevice` helper spawned by
`openDeviceHandle`, and `ex*` the open/fetch/close sequence performed by
`fetchAndFillConfigurationExtraData` on behalf of `getConfigurations`. -/
inductive TaskSt where
  | ohStart
  | ohAwait (p : Nat)
  | ohDone (h : Nat)
  | ohFailed (e : JsErr)
  | chStart (h : Nat)
  | chAwait (c : Nat)
  | chDone
  | chFailed (e : JsErr)
  | owAwaitClose (selfProm closeProm : Nat)
  | owAwaitOpen (selfProm hostOpenProm : Nat)
  | owDone
  | exStart
  | exAwaitOpen (q : Nat)
  | exFetching
  | exAwaitClose (c : Nat)
  | exDone
  | exFailed (e : Nat)
deriving DecidableEq

/-- The per-device system state: the `DeviceState` fields of the source
(`handles` as an insertion-ordered set, `openOperationPromise` and
`closeOperationPromise` as promise ids), the adaptor-wide
`nextFreeDeviceHandle_` counter, the promise store, the lists of host
`open()` / `close()` promises in order of issue, and the task pool. -/
structure DevSys where
  handles : List Nat
  openOperationPromise : Option Nat
  closeOperationPromise : Option Nat
  nextFreeDeviceHandle : Nat
  proms : List PromState
  hostOpens : List Nat
  hostCloses : List Nat
  tasks : List TaskSt
deriving DecidableEq

/-- `Set.add`: append if absent. -/
def setAdd (l : List Nat) (h : Nat) : List Nat :=
  if h ∈ l then l else l ++ [h]

/-- The synchronous prologue of `openDeviceHandle` (source lines 136-166), up
to either the `await deviceState.openOperationPromise` suspension or — when a
handle already exists — the synchronous allocation and return.  Setting
`openOperationPromise` runs `openWebusbDevice` up to ITS first `await`: with a
pending close it suspends awaiting `closeOperationPromise`; otherwise it
issues the host `open()` (a fresh pending host promise) and awaits it. -/
def stepOhStart (s : DevSys) (i : Nat) : DevSys :=
  if s.handles.length = 0 then
    match s.openOperationPromise with
    | some p => { s with tasks := s.tasks.set i (.ohAwait p) }
    | none =>
      match s.closeOperationPromise with
      | some c =>
        { s with
          proms := s.proms ++ [.pending],
          openOperationPromise := some s.proms.length,
          tasks := (s.tasks.set i (.ohAwait s.proms.length)) ++
            [.owAwaitClose s.proms.length c] }
      | none =>
        { s with
          proms := s.proms ++ [.pending, .pending],
          openOperationPromise := some s.proms.length,
          hostOpens := s.hostOpens ++ [s.proms.length + 1],
          tasks := (s.tasks.set i (.ohAwait s.proms.length)) ++
            [.owAwaitOpen s.proms.length (s.proms.length + 1)] }
  else
    -- `handles` non-empty: no `await` is executed; allocate and return.
    { s with
      tasks := s.tasks.set i (.ohDone s.nextFreeDeviceHandle),
      handles := setAdd s.handles s.nextFreeDeviceHandle,
      nextFreeDeviceHandle := s.nextFreeDeviceHandle + 1 }

/-- One atomic step of task `i`; `none` when the task is finished or is
suspended on a still-pending promise. -/
def stepTaskAt (s : DevSys) (i : Nat) : Option DevSys :=
  match s.tasks[i]? with
  | none => none
  | some t =>
    match t with
    | .ohStart => some (stepOhStart s i)
    | .ohAwait p =>
      -- Resumption of `await openOperationPromise`: the `finally` clears the
      -- marker unconditionally; on success the handle is allocated and
      -- recorded in the same synchronous block.
      match s.proms[p]? with
      | some (.settled .success) =>
        some { s with
          openOperationPromise := none,
          tasks := s.tasks.set i (.ohDone s.nextFreeDeviceHandle),
          handles := setAdd s.handles s.nextFreeDeviceHandle,
          nextFreeDeviceHandle := s.nextFreeDeviceHandle + 1 }
      | some (.settled (.failure e)) =>
        some { s with
          openOperationPromise := none,
          tasks := s.tasks.set i (.ohFailed (.hostErr e)) }
      | _ => none
    | .chStart h =>
      -- Synchronous prologue of `closeDeviceHandle` (source lines 169-181):
      -- validate, delete the handle, and either return or issue the host
      -- `close()` (recorded synchronously in `closeOperationPromise`).
      if h ∈ s.handles then
        if 0 < (s.handles.erase h).length then
          some { s with handles := s.handles.erase h, tasks := s.tasks.set i .chDone }
        else
          some { s with
            handles := s.handles.erase h,
            proms := s.proms ++ [.pending],
            closeOperationPromise := some s.proms.length,
            hostCloses := s.hostCloses ++ [s.proms.length],
            tasks := s.tasks.set i (.chAwait s.proms.length) }
      else
        some { s with tasks := s.tasks.set i (.chFailed (.unknownHandle h)) }
    | .chAwait c =>
      -- Resumption of `await closeOperationPromise`: cleared only on success;
      -- intentionally left set on failure.
      match s.proms[c]? with
      | some (.settled .success) =>
        some { s with closeOperationPromise := none, tasks := s.tasks.set i .chDone }
      | some (.settled (.failure e)) =>
        some { s with tasks := s.tasks.set i (.chFailed (.hostErr e)) }
      | _ => none
    | .owAwaitClose selfProm closeProm =>
      -- `openWebusbDevice`: the pending close resolved — issue the host
      -- `open()`; or it rejected — reject `openOperationPromise` with the
      -- same error, without issuing any host open.
      match s.proms[closeProm]? with
      | some (.settled .success) =>
        some { s with
          proms := s.proms ++ [.pending],
          hostOpens := s.hostOpens ++ [s.proms.length],
          tasks := s.tasks.set i (.owAwaitOpen selfProm s.proms.length) }
      | some (.settled (.failure e)) =>
        some { s with
          proms := s.proms.set selfProm (.settled (.failure e)),
          tasks := s.tasks.set i .owDone }
      | _ => none
    | .owAwaitOpen selfProm hostOpenProm =>
      -- The host `open()` settled; `openWebusbDevice` returns or rethrows,
      -- settling `openOperationPromise` the same way.
      match s.proms[hostOpenProm]? with
      | some (.settled o) =>
        some { s with
          proms := s.proms.set selfProm (.settled o),
          tasks := s.tasks.set i .owDone }
      | _ => none
    | .exStart =>
      -- `fetchAndFillConfigurationExtraData`: `await webusbDevice.open()`
      -- directly — NOT routed through the pending-operation markers.
      some { s with
        proms := s.proms ++ [.pending],
        hostOpens := s.hostOpens ++ [s.proms.length],
        tasks := s.tasks.set i (.exAwaitOpen s.proms.length) }
    | .exAwaitOpen q =>
      match s.proms[q]? with
      | some (.settled .success) => some { s with tasks := s.tasks.set i .exFetching }
      | some (.settled (.failure e)) => some { s with tasks := s.tasks.set i (.exFailed e) }
      | _ => none
    | .exFetching =>
      -- The control transfers, then the `finally { await webusbDevice.close() }`
      -- — again not routed through `closeOperationPromise`.
      some { s with
        proms := s.proms ++ [.pending],
        hostCloses := s.hostCloses ++ [s.proms.length],
        tasks := s.tasks.set i (.exAwaitClose s.proms.length) }
    | .exAwaitClose c =>
      match s.proms[c]? with
      | some (.settled .success) => some { s with tasks := s.tasks.set i .exDone }
      | some (.settled (.failure e)) => some { s with tasks := s.tasks.set i (.exFailed e) }
      | _ => none
    | .ohDone _ => none
    | .ohFailed _ => none
    | .chDone => none
    | .chFailed _ => none
    | .owDone => none
    | .exDone => none
    | .exFailed _ => none

/-- A scheduler label: run one task step, or let the host settle one of its
outstanding `open()`/`close()` promises with an arbitrary outcome. -/
inductive SchedLabel where
  | task (i : Nat)
  | env (p : Nat) (o : JsOutcome)

def stepEnv (s : DevSys) (p : Nat) (o : JsOutcome) : Option DevSys :=
  if (p ∈ s.hostOpens ∨ p ∈ s.hostCloses) ∧ s.proms[p]? = some .pending then
    some { s with proms := s.proms.set p (.settled o) }
  else none

def step (s : DevSys) : SchedLabel → Option DevSys
  | .task i => stepTaskAt s i
  | .env p o => stepEnv s p o

def run (s : DevSys) : List SchedLabel → Option DevSys
  | [] => some s
  | l :: ls =>
    match step s l with
    | some s' => run s' ls
    | none => none

/-- Number of host `open()` calls currently in flight (issued, not settled). -/
def pendingHostOpens (s : DevSys) : Nat :=
  (s.hostOpens.filter (fun p => decide (s.proms[p]? = some .pending))).length

/-- `getDeviceByIdAndHandleOrThrow_`'s handle check (source lines 276-277),
used by every transfer/claim/release/reset request. -/
def checkDeviceHandle (s : DevSys) (deviceHandle : Nat) : Except JsErr Unit :=
  if deviceHandle ∈ s.handles then Except.ok ()
  else Except.error (.unknownHandle deviceHandle)

theorem set_concat_length (l : List α) (a b : α) :
    (l ++ [a]).set l.length b = l ++ [b] := by
  induction l with
  | nil => rfl
  | cons x xs ih => simp [List.set, ih]

/-- Claim C1 scenario: an `openDeviceHandle` request and a `getConfigurations`
extra-data fetch arrive concurrently on a closed device. -/
def c1Init : DevSys :=
  { handles := [], openOperationPromise := none, closeOperationPromise := none,
    nextFreeDeviceHandle := 1, proms := [], hostOpens := [], hostCloses := [],
    tasks := [.ohStart, .exStart] }

/-- State after the `openDeviceHandle` prologue (host open #1 in flight,
guarded by the pending-open marker) and the extraction's direct
`webusbDevice.open()` (host open #2 in flight, guarded by nothing). -/
def c1Final : DevSys :=
  { handles := [], openOperationPromise := some 0, closeOperationPromise := none,
    nextFreeDeviceHandle := 1, proms := [.pending, .pending, .pending],
    hostOpens := [1, 2], hostCloses := [],
    tasks := [.ohAwait 0, .exAwaitOpen 2, .owAwaitOpen 0 1] }

/-- Claim C1 fails on the code: `fetchAndFillConfigurationExtraData` (used by
`getConfigurations`) calls `webusbDevice.open()` directly, bypassing
`openOperationPromise`/`closeOperationPromise`; interleaving it with
`openDeviceHandle` puts TWO physical host opens in flight on one device at
once, contradicting the at-most-one-in-flight guarantee (and the code's own
stated reason for the markers — WebUSB throws on concurrent open/close; see
also the source's TODO(#429) about this path). -/
theorem c1_concurrent_physical_opens :
    run c1Init [.task 0, .task 1] = some c1Final ∧ pendingHostOpens c1Final = 2 := by
  decide

/-- Claim C8: `closeDeviceHandle` on the last outstanding handle issues exactly one
physical host close (one new entry in `hostCloses`, recorded in
`closeOperationPromise`); closing a non-last handle completes synchronously
with no physical close; and the resumption of an in-flight close never issues
another one. -/
theorem c8_last_handle_close :
    (∀ (s : DevSys) (i h : Nat), s.tasks[i]? = some (.chStart h) → s.handles = [h] →
      step s (.task i) = some
        { s with
          handles := [],
          proms := s.proms ++ [.pending],
          closeOperationPromise := some s.proms.length,
          hostCloses := s.hostCloses ++ [s.proms.length],
          tasks := s.tasks.set i (.chAwait s.proms.length) }) ∧
    (∀ (s : DevSys) (i h h' : Nat), s.tasks[i]? = some (.chStart h) →
      h ∈ s.handles → h' ∈ s.handles → h' ≠ h →
      step s (.task i) = some
        { s with handles := s.handles.erase h, tasks := s.tasks.set i .chDone }) ∧
    (∀ (s : DevSys) (i c : Nat) (s' : DevSys), s.tasks[i]? = some (.chAwait c) →
      step s (.task i) = some s' → s'.hostCloses = s.hostCloses) := by
  refine ⟨?_, ?_, ?_⟩
  · intro s i h ht hh
    simp only [step, stepTaskAt, ht]
    rw [hh]
    simp [List.erase_cons_head]
  · intro s i h h' ht hmem hmem' hne
    have h2 : 0 < (s.handles.erase h).length := by
      have : h' ∈ s.handles.erase h := List.mem_erase_of_ne hne |>.mpr hmem'
      exact List.length_pos.mpr (List.ne_nil_of_mem this)
    simp only [step, stepTaskAt, ht]
    simp [hmem, h2]
    have h3 := List.length_erase_of_mem hmem
    omega
  · intro s i c s' ht hstep
    simp only [step, stepTaskAt, ht] at hstep
    cases hp : s.proms[c]? with
    | none => rw [hp] at hstep; cases hstep
    | some ps =>
      rw [hp] at hstep
      cases ps with
      | pending => cases hstep
      | settled o =>
        cases o with
        | success =>
          obtain rfl : _ = s' := Option.some.inj hstep
          rfl
        | failure e =>
          obtain rfl : _ = s' := Option.some.inj hstep
          rfl

/-- Witness for `c8_last_handle_close` at concrete states. -/
theorem c8_last_handle_close_witness :
    (step { handles := [7], openOperationPromise := none,
            closeOperationPromise := none, nextFreeDeviceHandle := 8,
            proms := [], hostOpens := [], hostCloses := [],
            tasks := [.chStart 7] } (.task 0) = some
      { handles := [], openOperationPromise := none,
        closeOperationPromise := some 0, nextFreeDeviceHandle := 8,
        proms := [.pending], hostOpens := [], hostCloses := [0],
        tasks := [.chAwait 0] }) ∧
    (step { handles := [7, 9], openOperationPromise := none,
            closeOperationPromise := none, nextFreeDeviceHandle := 10,
            proms := [], hostOpens := [], hostCloses := [],
            tasks := [.chStart 7] } (.task 0) = some
      { handles := [9], openOperationPromise := none,
        closeOperationPromise := none, nextFreeDeviceHandle := 10,
        proms := [], hostOpens := [], hostCloses := [],
        tasks := [.chDone] }) ∧
    ({ handles := ([] : List Nat), openOperationPromise := none,
       closeOperationPromise := none, nextFreeDeviceHandle := 8,
       proms := [.settled .success], hostOpens := [], hostCloses := [0],
       tasks := [.chDone] } : DevSys).hostCloses = [0] := by
  refine ⟨?_, ?_, ?_⟩
  · exact c8_last_handle_close.1 _ 0 7 (by decide) (by decide)
  · exact c8_last_handle_close.2.1 _ 0 7 9 (by decide) (by decide) (by decide) (by decide)
  · exact c8_last_handle_close.2.2
      { handles := [], openOperationPromise := none,
        closeOperationPromise := some 0, nextFreeDeviceHandle := 8,
        proms := [.settled .success], hostOpens := [], hostCloses := [0],
        tasks := [.chAwait 0] } 0 0 _ (by decide) (by decide)

/-- Claim C9: the pending-close marker survives a failed physical close, and the
deterministic continuation of any later `openDeviceHandle` call on that device
awaits the marker and re-surfaces the same failure without any new host open.
First conjunct: the resumption of `closeDeviceHandle` after a rejected host
close leaves `closeOperationPromise` untouched and fails the request with the
host's error.  Second conjunct: from any state whose `closeOperationPromise`
holds a promise rejected with error `e`, an `openDeviceHandle` task runs its
prologue, the spawned `openWebusbDevice` awaits the failed close and rejects
with `e`, and the request fails with `e` — with `hostOpens` unchanged (no new
physical open) and the marker still set. -/
theorem c9_failed_close_fail_closed :
    (∀ (s : DevSys) (i c e : Nat) (s' : DevSys),
      s.tasks[i]? = some (.chAwait c) →
      s.proms[c]? = some (.settled (.failure e)) →
      step s (.task i) = some s' →
      s'.closeOperationPromise = s.closeOperationPromise ∧
        s'.tasks[i]? = some (.chFailed (.hostErr e)) ∧
        s'.hostOpens = s.hostOpens ∧ s'.hostCloses = s.hostCloses) ∧
    (∀ (s : DevSys) (i c e : Nat),
      s.tasks[i]? = some .ohStart → s.handles = [] →
      s.openOperationPromise = none → s.closeOperationPromise = some c →
      s.proms[c]? = some (.settled (.failure e)) →
      ∃ s3 : DevSys,
        run s [.task i, .task s.tasks.length, .task i] = some s3 ∧
        s3.tasks[i]? = some (.ohFailed (.hostErr e)) ∧
        s3.hostOpens = s.hostOpens ∧
        s3.closeOperationPromise = some c) := by
  constructor
  · intro s i c e s' ht hp hstep
    have hi : i < s.tasks.length := by
      by_contra hge
      rw [List.getElem?_eq_none (by omega)] at ht
      cases ht
    simp only [step, stepTaskAt, ht, hp] at hstep
    obtain rfl : _ = s' := Option.some.inj hstep
    exact ⟨rfl, by simp [List.getElem?_set_eq hi], rfl, rfl⟩
  · intro s i c e ht hH hO hC hp
    have hi : i < s.tasks.length := by
      by_contra hge
      rw [List.getElem?_eq_none (by omega)] at ht
      cases ht
    have hc : c < s.proms.length := by
      by_contra hge
      rw [List.getElem?_eq_none (by omega)] at hp
      cases hp
    have h1 : step s (.task i) = some
        { s with
          proms := s.proms ++ [.pending],
          openOperationPromise := some s.proms.length,
          tasks := (s.tasks.set i (.ohAwait s.proms.length)) ++
            [.owAwaitClose s.proms.length c] } := by
      simp only [step, stepTaskAt, ht, stepOhStart, hO, hC]
      rw [hH]
      simp
    have hlen1 : (s.tasks.set i (.ohAwait s.proms.length)).length = s.tasks.length :=
      List.length_set _ _ _
    have h2get : ((s.tasks.set i (.ohAwait s.proms.length)) ++
        [.owAwaitClose s.proms.length c])[s.tasks.length]? =
        some (.owAwaitClose s.proms.length c) := by
      rw [← hlen1]
      exact List.getElem?_concat_length _ _
    have h2prom : (s.proms ++ [PromState.pending])[c]? =
        some (.settled (.failure e)) := by
      rw [List.getElem?_append_left hc]
      exact hp
    have h2 : step
        { s with
          proms := s.proms ++ [.pending],
          openOperationPromise := some s.proms.length,
          tasks := (s.tasks.set i (TaskSt.ohAwait s.proms.length)) ++
            [TaskSt.owAwaitClose s.proms.length c] } (.task s.tasks.length) = some
        { s with
          proms := s.proms ++ [.settled (.failure e)],
          openOperationPromise := some s.proms.length,
          tasks := ((s.tasks.set i (TaskSt.ohAwait s.proms.length)) ++
            [TaskSt.owAwaitClose s.proms.length c]).set s.tasks.length
              TaskSt.owDone } := by
      simp only [step, stepTaskAt, h2get, h2prom]
      rw [set_concat_length]
    have h3get : (((s.tasks.set i (TaskSt.ohAwait s.proms.length)) ++
        [TaskSt.owAwaitClose s.proms.length c]).set s.tasks.length
          TaskSt.owDone)[i]? = some (TaskSt.ohAwait s.proms.length) := by
      rw [List.getElem?_set_ne (by omega)]
      rw [List.getElem?_append_left (by omega)]
      exact List.getElem?_set_self (by omega)
    have h3prom : (s.proms ++ [PromState.settled (.failure e)])[s.proms.length]? =
        some (.settled (.failure e)) :=
      List.getElem?_concat_length _ _
    have h3 : step
        { s with
          proms := s.proms ++ [.settled (.failure e)],
          openOperationPromise := some s.proms.length,
          tasks := ((s.tasks.set i (TaskSt.ohAwait s.proms.length)) ++
            [TaskSt.owAwaitClose s.proms.length c]).set s.tasks.length
              TaskSt.owDone }
          (.task i) = some
        { s with
          proms := s.proms ++ [.settled (.failure e)],
          openOperationPromise := none,
          tasks := (((s.tasks.set i (TaskSt.ohAwait s.proms.length)) ++
            [TaskSt.owAwaitClose s.proms.length c]).set s.tasks.length
              TaskSt.owDone).set i (TaskSt.ohFailed (.hostErr e)) } := by
      simp only [step, stepTaskAt, h3get, h3prom]
    refine ⟨{ s with
        proms := s.proms ++ [.settled (.failure e)],
        openOperationPromise := none,
        tasks := (((s.tasks.set i (TaskSt.ohAwait s.proms.length)) ++
          [TaskSt.owAwaitClose s.proms.length c]).set s.tasks.length
            TaskSt.owDone).set i (TaskSt.ohFailed (.hostErr e)) }, ?_, ?_, rfl, hC⟩
    · simp only [run, h1, h2, h3]
    · rw [List.getElem?_set_self]
      simp only [List.length_set, List.length_append, hlen1]
      omega

/-- Witness for `c9_failed_close_fail_closed` at a concrete post-failed-close
state (one closed handle, host close promise 0 rejected with error 42). -/
theorem c9_failed_close_fail_closed_witness :
    (step { handles := [], openOperationPromise := none,
            closeOperationPromise := some 0, nextFreeDeviceHandle := 2,
            proms := [.settled (.failure 42)], hostOpens := [],
            hostCloses := [0], tasks := [.chAwait 0] } (.task 0) = some
      { handles := [], openOperationPromise := none,
        closeOperationPromise := some 0, nextFreeDeviceHandle := 2,
        proms := [.settled (.failure 42)], hostOpens := [],
        hostCloses := [0], tasks := [.chFailed (.hostErr 42)] } ∧
     (some 0 : Option Nat) = some 0 ∧ True) ∧
    (∃ s3 : DevSys,
      run { handles := [], openOperationPromise := none,
            closeOperationPromise := some 0, nextFreeDeviceHandle := 2,
            proms := [.settled (.failure 42)], hostOpens := [],
            hostCloses := [0], tasks := [.ohStart] }
          [.task 0, .task 1, .task 0] = some s3 ∧
        s3.tasks[0]? = some (.ohFailed (.hostErr 42)) ∧
        s3.hostOpens = ([] : List Nat) ∧
        s3.closeOperationPromise = some 0) := by
  constructor
  · have h := c9_failed_close_fail_closed.1
      { handles := [], openOperationPromise := none,
        closeOperationPromise := some 0, nextFreeDeviceHandle := 2,
        proms := [.settled (.failure 42)], hostOpens := [],
        hostCloses := [0], tasks := [.chAwait 0] } 0 0 42
      { handles := [], openOperationPromise := none,
        closeOperationPromise := some 0, nextFreeDeviceHandle := 2,
        proms := [.settled (.failure 42)], hostOpens := [],
        hostCloses := [0], tasks := [.chFailed (.hostErr 42)] }
      (by decide) (by decide) (by decide)
    exact ⟨by decide, h.1, trivial⟩
  · exact c9_failed_close_fail_closed.2
      { handles := [], openOperationPromise := none,
        closeOperationPromise := some 0, nextFreeDeviceHandle := 2,
        proms := [.settled (.failure 42)], hostOpens := [],
        hostCloses := [0], tasks := [.ohStart] } 0 0 42
      (by decide) (by decide) (by decide) (by decide) (by decide)

/-- A handle that has been removed while every live handle is below the
counter can never reappear: fresh handles always come from the counter. -/
def HandleRetired (h : Nat) (s : DevSys) : Prop :=
  (∀ x ∈ s.handles, x < s.nextFreeDeviceHandle) ∧
    h ∉ s.handles ∧ h < s.nextFreeDeviceHandle

theorem handleRetired_setAdd {h n : Nat} {l : List Nat}
    (hb : ∀ x ∈ l, x < n) (hn : h ∉ l) (hlt : h < n) :
    (∀ x ∈ setAdd l n, x < n + 1) ∧ h ∉ setAdd l n ∧ h < n + 1 := by
  unfold setAdd
  split
  · exact ⟨fun x hx => Nat.lt_succ_of_lt (hb x hx), hn, Nat.lt_succ_of_lt hlt⟩
  · refine ⟨?_, ?_, Nat.lt_succ_of_lt hlt⟩
    · intro x hx
      rcases List.mem_append.mp hx with hx | hx
      · exact Nat.lt_succ_of_lt (hb x hx)
      · simp at hx; omega
    · intro hmem
      rcases List.mem_append.mp hmem with hx | hx
      · exact hn hx
      · simp at hx; omega

theorem handleRetired_step {h : Nat} {s s' : DevSys} {l : SchedLabel}
    (hr : HandleRetired h s) (hstep : step s l = some s') : HandleRetired h s' := by
  obtain ⟨hb, hn, hlt⟩ := hr
  cases l with
  | env p o =>
    simp only [step, stepEnv] at hstep
    split at hstep
    · obtain rfl : _ = s' := Option.some.inj hstep
      exact ⟨hb, hn, hlt⟩
    · cases hstep
  | task i =>
    simp only [step, stepTaskAt] at hstep
    cases ht : s.tasks[i]? with
    | none => rw [ht] at hstep; cases hstep
    | some t =>
      rw [ht] at hstep
      cases t with
      | ohStart =>
        dsimp only at hstep
        simp only [stepOhStart] at hstep
        split at hstep
        · cases hOp : s.openOperationPromise with
          | some p0 =>
            rw [hOp] at hstep
            obtain rfl : _ = s' := Option.some.inj hstep
            exact ⟨hb, hn, hlt⟩
          | none =>
            rw [hOp] at hstep
            dsimp only at hstep
            cases hCl : s.closeOperationPromise with
            | some c0 =>
              rw [hCl] at hstep
              obtain rfl : _ = s' := Option.some.inj hstep
              exact ⟨hb, hn, hlt⟩
            | none =>
              rw [hCl] at hstep
              obtain rfl : _ = s' := Option.some.inj hstep
              exact ⟨hb, hn, hlt⟩
        · obtain rfl : _ = s' := Option.some.inj hstep
          exact handleRetired_setAdd hb hn hlt
      | ohAwait p =>
        dsimp only at hstep
        cases hp : s.proms[p]? with
        | none => rw [hp] at hstep; cases hstep
        | some ps =>
          rw [hp] at hstep
          cases ps with
          | pending => cases hstep
          | settled o =>
            cases o with
            | success =>
              obtain rfl : _ = s' := Option.some.inj hstep
              exact handleRetired_setAdd hb hn hlt
            | failure e =>
              obtain rfl : _ = s' := Option.some.inj hstep
              exact ⟨hb, hn, hlt⟩
      | chStart h0 =>
        dsimp only at hstep
        split at hstep
        · split at hstep
          · obtain rfl : _ = s' := Option.some.inj hstep
            exact ⟨fun x hx => hb x (List.mem_of_mem_erase hx),
              fun hx => hn (List.mem_of_mem_erase hx), hlt⟩
          · obtain rfl : _ = s' := Option.some.inj hstep
            exact ⟨fun x hx => hb x (List.mem_of_mem_erase hx),
              fun hx => hn (List.mem_of_mem_erase hx), hlt⟩
        · obtain rfl : _ = s' := Option.some.inj hstep
          exact ⟨hb, hn, hlt⟩
      | chAwait c =>
        dsimp only at hstep
        cases hp : s.proms[c]? with
        | none => rw [hp] at hstep; cases hstep
        | some ps =>
          rw [hp] at hstep
          cases ps with
          | pending => cases hstep
          | settled o =>
            cases o with
            | success =>
              obtain rfl : _ = s' := Option.some.inj hstep
              exact ⟨hb, hn, hlt⟩
            | failure e =>
              obtain rfl : _ = s' := Option.some.inj hstep
              exact ⟨hb, hn, hlt⟩
      | owAwaitClose a b =>
        dsimp only at hstep
        cases hp : s.proms[b]? with
        | none => rw [hp] at hstep; cases hstep
        | some ps =>
          rw [hp] at hstep
          cases ps with
          | pending => cases hstep
          | settled o =>
            cases o with
            | success =>
              obtain rfl : _ = s' := Option.some.inj hstep
              exact ⟨hb, hn, hlt⟩
            | failure e =>
              obtain rfl : _ = s' := Option.some.inj hstep
              exact ⟨hb, hn, hlt⟩
      | owAwaitOpen a b =>
        dsimp only at hstep
        cases hp : s.proms[b]? with
        | none => rw [hp] at hstep; cases hstep
        | some ps =>
          rw [hp] at hstep
          cases ps with
          | pending => cases hstep
          | settled o =>
            obtain rfl : _ = s' := Option.some.inj hstep
            exact ⟨hb, hn, hlt⟩
      | exStart =>
        dsimp only at hstep
        obtain rfl : _ = s' := Option.some.inj hstep
        exact ⟨hb, hn, hlt⟩
      | exAwaitOpen q =>
        dsimp only at hstep
        cases hp : s.proms[q]? with
        | none => rw [hp] at hstep; cases hstep
        | some ps =>
          rw [hp] at hstep
          cases ps with
          | pending => cases hstep
          | settled o =>
            cases o with
            | success =>
              obtain rfl : _ = s' := Option.some.inj hstep
              exact ⟨hb, hn, hlt⟩
            | failure e =>
              obtain rfl : _ = s' := Option.some.inj hstep
              exact ⟨hb, hn, hlt⟩
      | exFetching =>
        dsimp only at hstep
        obtain rfl : _ = s' := Option.some.inj hstep
        exact ⟨hb, hn, hlt⟩
      | exAwaitClose c0 =>
        dsimp only at hstep
        cases hp : s.proms[c0]? with
        | none => rw [hp] at hstep; cases hstep
        | some ps =>
          rw [hp] at hstep
          cases ps with
          | pending => cases hstep
          | settled o =>
            cases o with
            | success =>
              obtain rfl : _ = s' := Option.some.inj hstep
              exact ⟨hb, hn, hlt⟩
            | failure e =>
              obtain rfl : _ = s' := Option.some.inj hstep
              exact ⟨hb, hn, hlt⟩
      | ohDone h0 => cases hstep
      | ohFailed e0 => cases hstep
      | chDone => cases hstep
      | chFailed e0 => cases hstep
      | owDone => cases hstep
      | exDone => cases hstep
      | exFailed e0 => cases hstep

theorem handleRetired_run {h : Nat} :
    ∀ (L : List SchedLabel) (s s' : DevSys),
      HandleRetired h s → run s L = some s' → HandleRetired h s' := by
  intro L
  induction L with
  | nil =>
    intro s s' hr hrun
    obtain rfl : s = s' := Option.some.inj hrun
    exact hr
  | cons l ls ih =>
    intro s s' hr hrun
    rw [run] at hrun
    cases hstep : step s l with
    | none => rw [hstep] at hrun; cases hrun
    | some s1 =>
      rw [hstep] at hrun
      exact ih s1 s' (handleRetired_step hr hstep) hrun

/-- Claim C10: `closeDeviceHandle` removes the handle from the set in its
synchronous prologue — the same atomic block that (at most) starts the
physical close, so the removal precedes any completion of it and is visible
to all interleaved requests — and the handle stays removed afterwards in
every reachable state, whatever the close's outcome, so every subsequent
operation that validates this handle fails with the unknown-handle error. -/
theorem c10_close_removes_handle (s : DevSys) (i h : Nat) (s' : DevSys)
    (L : List SchedLabel) (s'' : DevSys)
    (ht : s.tasks[i]? = some (.chStart h)) (hmem : h ∈ s.handles)
    (hnd : s.handles.Nodup)
    (hb : ∀ x ∈ s.handles, x < s.nextFreeDeviceHandle)
    (hstep : step s (.task i) = some s')
    (hrun : run s' L = some s'') :
    s'.handles = s.handles.erase h ∧ h ∉ s''.handles ∧
      checkDeviceHandle s'' h = .error (.unknownHandle h) := by
  have hret : HandleRetired h s' ∧ s'.handles = s.handles.erase h := by
    simp only [step, stepTaskAt, ht, if_pos hmem] at hstep
    have hb' : ∀ x ∈ s.handles.erase h, x < s.nextFreeDeviceHandle :=
      fun x hx => hb x (List.mem_of_mem_erase hx)
    have hn' : h ∉ s.handles.erase h := by
      intro hx
      exact absurd ((hnd.mem_erase_iff).mp hx).1 (by simp)
    split at hstep
    · obtain rfl : _ = s' := Option.some.inj hstep
      exact ⟨⟨hb', hn', hb h hmem⟩, rfl⟩
    · obtain rfl : _ = s' := Option.some.inj hstep
      exact ⟨⟨hb', hn', hb h hmem⟩, rfl⟩
  obtain ⟨hret', heq⟩ := hret
  have hfin := handleRetired_run L s' s'' hret' hrun
  refine ⟨heq, hfin.2.1, ?_⟩
  simp [checkDeviceHandle, hfin.2.1]

/-- Claim C10 witness scenario: a device with the single handle 5 and a
`closeDeviceHandle(…, 5)` request about to run. -/
def c10Start : DevSys :=
  { handles := [5], openOperationPromise := none,
    closeOperationPromise := none, nextFreeDeviceHandle := 6,
    proms := [], hostOpens := [], hostCloses := [],
    tasks := [.chStart 5] }

/-- After the prologue: handle removed, host close 0 in flight. -/
def c10Mid : DevSys :=
  { handles := [], openOperationPromise := none,
    closeOperationPromise := some 0, nextFreeDeviceHandle := 6,
    proms := [.pending], hostOpens := [], hostCloses := [0],
    tasks := [.chAwait 0] }

/-- After the host close fails with error 7 and the request resumes. -/
def c10End : DevSys :=
  { handles := [], openOperationPromise := none,
    closeOperationPromise := some 0, nextFreeDeviceHandle := 6,
    proms := [.settled (.failure 7)], hostOpens := [], hostCloses := [0],
    tasks := [.chFailed (.hostErr 7)] }

/-- Witness for `c10_close_removes_handle`: closing the only handle 5, the
host close then failing. -/
theorem c10_close_removes_handle_witness :
    c10Mid.handles = [5].erase 5 ∧ 5 ∉ c10End.handles ∧
      checkDeviceHandle c10End 5 = .error (.unknownHandle 5) :=
  c10_close_removes_handle c10Start 0 5 c10Mid [.env 0 (.failure 7), .task 0] c10End
    (by decide) (by decide) (by decide) (by decide) (by decide) (by decide)

/-! ## C2: N concurrent `openDeviceHandle` calls -/

/-- N `openDeviceHandle` requests arriving concurrently on a device with no
handles and no pending open or close. -/
def initOpenSys (N n0 : Nat) : DevSys :=
  { handles := [], openOperationPromise := none, closeOperationPromise := none,
    nextFreeDeviceHandle := n0, proms := [], hostOpens := [], hostCloses := [],
    tasks := List.replicate N .ohStart }

def ohKindB : TaskSt → Bool
  | .ohStart => true
  | .ohAwait _ => true
  | .ohDone _ => true
  | .ohFailed _ => true
  | _ => false

def owKindB : TaskSt → Bool
  | .owAwaitOpen _ _ => true
  | .owDone => true
  | _ => false

def isOhFailed : TaskSt → Bool
  | .ohFailed _ => true
  | _ => false

/-- Number of `openDeviceHandle` requests that have failed. -/
def failedCount (s : DevSys) : Nat := s.tasks.countP isOhFailed

theorem countP_set (p : α → Bool) (l : List α) (i : Nat) (a b : α)
    (h : l[i]? = some a) :
    (l.set i b).countP p + (if p a then 1 else 0) =
      l.countP p + (if p b then 1 else 0) := by
  induction l generalizing i with
  | nil => cases h
  | cons x xs ih =>
    cases i with
    | zero =>
      rw [List.getElem?_cons_zero] at h
      obtain rfl : x = a := Option.some.inj h
      simp only [List.set, List.countP_cons]
      cases hpa : p x <;> cases hpb : p b <;> simp [hpa, hpb]
    | succ i =>
      simp only [List.getElem?_cons_succ] at h
      simp only [List.set, List.countP_cons]
      have := ih i h
      cases hpx : p x <;> simp [hpx] <;> omega

theorem countP_failed_set_same (l : List TaskSt) (i : Nat) (a b : TaskSt)
    (h : l[i]? = some a) (ha : isOhFailed a = false) (hb : isOhFailed b = false) :
    (l.set i b).countP isOhFailed = l.countP isOhFailed := by
  have := countP_set isOhFailed l i a b h
  rw [ha, hb] at this
  simpa using this

theorem countP_failed_set_incr (l : List TaskSt) (i : Nat) (a b : TaskSt)
    (h : l[i]? = some a) (ha : isOhFailed a = false) (hb : isOhFailed b = true) :
    (l.set i b).countP isOhFailed = l.countP isOhFailed + 1 := by
  have := countP_set isOhFailed l i a b h
  rw [ha, hb] at this
  simpa using this

theorem getElem?_set_cases {l : List α} {j : Nat} {b : α} {i : Nat} {t : α}
    (h : (l.set j b)[i]? = some t) :
    (i = j ∧ t = b ∧ i < l.length) ∨ (i ≠ j ∧ l[i]? = some t) := by
  by_cases hij : i = j
  · subst hij
    have hlt : i < l.length := by
      by_contra hge
      rw [List.getElem?_eq_none (by simp only [List.length_set]; omega)] at h
      cases h
    rw [List.getElem?_set_self hlt] at h
    exact Or.inl ⟨rfl, (Option.some.inj h).symm, hlt⟩
  · exact Or.inr ⟨hij, by rwa [List.getElem?_set_ne (Ne.symm hij)] at h⟩

theorem getElem?_concat_cases {l : List α} {y : α} {i : Nat} {t : α}
    (h : (l ++ [y])[i]? = some t) :
    (i < l.length ∧ l[i]? = some t) ∨ (i = l.length ∧ t = y) := by
  by_cases hlt : i < l.length
  · exact Or.inl ⟨hlt, by rwa [List.getElem?_append_left hlt] at h⟩
  · have hle : i = l.length := by
      by_contra hne
      rw [List.getElem?_eq_none (by simp; omega)] at h
      cases h
    subst hle
    rw [List.getElem?_concat_length] at h
    exact Or.inr ⟨rfl, (Option.some.inj h).symm⟩

theorem mem_setAdd_self (l : List Nat) (n : Nat) : n ∈ setAdd l n := by
  unfold setAdd
  split
  · assumption
  · exact List.mem_append_right _ (by simp)

theorem mem_setAdd_of_mem {l : List Nat} {x n : Nat} (h : x ∈ l) :
    x ∈ setAdd l n := by
  unfold setAdd
  split
  · exact h
  · exact List.mem_append_left _ h

theorem setAdd_ne_nil (l : List Nat) (n : Nat) : setAdd l n ≠ [] := by
  unfold setAdd
  split
  · intro hnil
    subst hnil
    simp_all
  · simp

theorem bound_setAdd {l : List Nat} {n : Nat} (hb : ∀ x ∈ l, x < n) :
    ∀ x ∈ setAdd l n, x < n + 1 := by
  intro x hx
  unfold setAdd at hx
  split at hx
  · exact Nat.lt_succ_of_lt (hb x hx)
  · rcases List.mem_append.mp hx with hx | hx
    · exact Nat.lt_succ_of_lt (hb x hx)
    · simp at hx; omega

/-- The inductive invariant of the N-concurrent-opens system.  `countBound`
is the accounting at the heart of "exactly one physical open": every host
open except possibly the one guarded by a live pending-open marker (or
witnessed by a non-empty handle set) is paid for by a failed request. -/
structure InvOpen (N : Nat) (s : DevSys) : Prop where
  closeNone : s.closeOperationPromise = none
  lenGe : N ≤ s.tasks.length
  kindsLo : ∀ (i : Nat) (t : TaskSt), s.tasks[i]? = some t → i < N → ohKindB t = true
  kindsHi : ∀ (i : Nat) (t : TaskSt), s.tasks[i]? = some t → N ≤ i → owKindB t = true
  bound : ∀ x ∈ s.handles, x < s.nextFreeDeviceHandle
  doneMem : ∀ (i h : Nat), s.tasks[i]? = some (TaskSt.ohDone h) → h ∈ s.handles
  doneDistinct : ∀ (i j h h' : Nat), i ≠ j → s.tasks[i]? = some (TaskSt.ohDone h) →
    s.tasks[j]? = some (TaskSt.ohDone h') → h ≠ h'
  countBound : s.hostOpens.length ≤ failedCount s +
    (if s.openOperationPromise.isSome ∨ s.handles ≠ [] then 1 else 0)
  handlesOpens : s.handles ≠ [] → s.hostOpens ≠ []
  openOpOpens : s.openOperationPromise.isSome → s.hostOpens ≠ []
  awaitOpens : ∀ (i p : Nat), s.tasks[i]? = some (TaskSt.ohAwait p) → s.hostOpens ≠ []

theorem invOpen_init (N n0 : Nat) : InvOpen N (initOpenSys N n0) := by
  have hrep : ∀ i (t : TaskSt), (List.replicate N TaskSt.ohStart)[i]? = some t →
      t = .ohStart ∧ i < N := by
    intro i t h
    by_cases hi : i < N
    · rw [List.getElem?_replicate_of_lt hi] at h
      exact ⟨(Option.some.inj h).symm, hi⟩
    · rw [List.getElem?_eq_none (by simp; omega)] at h
      cases h
  refine ⟨rfl, by simp [initOpenSys], ?_, ?_, ?_, ?_, ?_, ?_, ?_, ?_, ?_⟩
  · intro i t h _
    obtain ⟨rfl, _⟩ := hrep i t h
    rfl
  · intro i t h hge
    obtain ⟨rfl, hlt⟩ := hrep i t h
    omega
  · intro x hx; cases hx
  · intro i h hdone
    obtain ⟨heq, _⟩ := hrep i _ hdone
    cases heq
  · intro i j h h' _ hdone _
    obtain ⟨heq, _⟩ := hrep i _ hdone
    cases heq
  · simp [initOpenSys, failedCount]
  · intro hne; exact absurd rfl hne
  · intro hs; cases hs
  · intro i p h
    obtain ⟨heq, _⟩ := hrep i _ h
    cases heq

theorem notOhOw {N : Nat} {s : DevSys} (inv : InvOpen N s) {i : Nat} {t : TaskSt}
    (ht : s.tasks[i]? = some t) (h1 : ohKindB t = false) (h2 : owKindB t = false) :
    False := by
  by_cases hi : i < N
  · have := inv.kindsLo i t ht hi
    rw [h1] at this
    cases this
  · have := inv.kindsHi i t ht (by omega)
    rw [h2] at this
    cases this

/-- The invariant is preserved by every scheduler step.  (The only
task kinds reachable from `initOpenSys` are `oh*` and `ow*`.) -/
theorem invOpen_step {N : Nat} {s s' : DevSys} {l : SchedLabel}
    (inv : InvOpen N s) (hstep : step s l = some s') : InvOpen N s' := by
  cases l with
  | env p o =>
    simp only [step, stepEnv] at hstep
    split at hstep
    · obtain rfl : _ = s' := Option.some.inj hstep
      exact ⟨inv.closeNone, inv.lenGe, inv.kindsLo, inv.kindsHi, inv.bound,
        inv.doneMem, inv.doneDistinct, inv.countBound, inv.handlesOpens,
        inv.openOpOpens, inv.awaitOpens⟩
    · cases hstep
  | task i =>
    simp only [step, stepTaskAt] at hstep
    cases ht : s.tasks[i]? with
    | none => rw [ht] at hstep; cases hstep
    | some t =>
      rw [ht] at hstep
      cases t with
      | chStart h0 => exact (notOhOw inv ht rfl rfl).elim
      | chAwait c => exact (notOhOw inv ht rfl rfl).elim
      | chDone => exact (notOhOw inv ht rfl rfl).elim
      | chFailed e0 => exact (notOhOw inv ht rfl rfl).elim
      | owAwaitClose a b => exact (notOhOw inv ht rfl rfl).elim
      | exStart => exact (notOhOw inv ht rfl rfl).elim
      | exAwaitOpen q => exact (notOhOw inv ht rfl rfl).elim
      | exFetching => exact (notOhOw inv ht rfl rfl).elim
      | exAwaitClose c0 => exact (notOhOw inv ht rfl rfl).elim
      | exDone => exact (notOhOw inv ht rfl rfl).elim
      | exFailed e0 => exact (notOhOw inv ht rfl rfl).elim
      | ohDone h0 => cases hstep
      | ohFailed e0 => cases hstep
      | owDone => cases hstep
      | ohStart =>
        have hiN : i < N := by
          by_contra hge
          have := inv.kindsHi i _ ht (by omega)
          simp [owKindB] at this
        have hilen : i < s.tasks.length := by
          by_contra hge
          rw [List.getElem?_eq_none (by omega)] at ht
          cases ht
        dsimp only at hstep
        simp only [stepOhStart] at hstep
        split at hstep
        · rename_i hlen0
          have hhe : s.handles = [] := List.length_eq_zero.mp hlen0
          cases hOp : s.openOperationPromise with
          | some p =>
            rw [hOp] at hstep
            dsimp only at hstep
            obtain rfl : _ = s' := Option.some.inj hstep
            refine ⟨inv.closeNone, ?_, ?_, ?_, inv.bound, ?_, ?_, ?_, inv.handlesOpens,
              ?_, ?_⟩
            · simp only [List.length_set]; exact inv.lenGe
            · intro j t h hj
              rcases getElem?_set_cases h with ⟨rfl, rfl, _⟩ | ⟨hne, h⟩
              · rfl
              · exact inv.kindsLo j t h hj
            · intro j t h hj
              rcases getElem?_set_cases h with ⟨rfl, rfl, _⟩ | ⟨hne, h⟩
              · omega
              · exact inv.kindsHi j t h hj
            · intro j h hd
              rcases getElem?_set_cases hd with ⟨rfl, he, _⟩ | ⟨hne, hd⟩
              · cases he
              · exact inv.doneMem j h hd
            · intro j k h h' hjk hdj hdk
              rcases getElem?_set_cases hdj with ⟨rfl, he, _⟩ | ⟨hnej, hdj⟩
              · cases he
              rcases getElem?_set_cases hdk with ⟨rfl, he, _⟩ | ⟨hnek, hdk⟩
              · cases he
              exact inv.doneDistinct j k h h' hjk hdj hdk
            · have hc := countP_set isOhFailed s.tasks i _ (TaskSt.ohAwait p) ht
              simp only [isOhFailed] at hc
              have hpre := inv.countBound
              rw [hOp] at hpre
              simp only [failedCount] at hpre ⊢
              dsimp only
              simp only [Option.isSome_some, true_or, if_pos] at hpre ⊢
              omega
            · intro _
              exact inv.openOpOpens (by rw [hOp]; rfl)
            · intro j q h
              rcases getElem?_set_cases h with ⟨rfl, he, _⟩ | ⟨hne, h⟩
              · exact inv.openOpOpens (by rw [hOp]; rfl)
              · exact inv.awaitOpens j q h
          | none =>
            rw [hOp] at hstep
            dsimp only at hstep
            rw [inv.closeNone] at hstep
            dsimp only at hstep
            obtain rfl : _ = s' := Option.some.inj hstep
            have hconcat : ∀ (j : Nat) (t : TaskSt),
                ((s.tasks.set i (TaskSt.ohAwait s.proms.length)) ++
                  [TaskSt.owAwaitOpen s.proms.length (s.proms.length + 1)])[j]? = some t →
                (j = s.tasks.length ∧ t = TaskSt.owAwaitOpen s.proms.length
                  (s.proms.length + 1)) ∨
                (j ≠ s.tasks.length ∧ (j = i ∧ t = TaskSt.ohAwait s.proms.length) ∨
                  (j ≠ s.tasks.length ∧ j ≠ i ∧ s.tasks[j]? = some t)) := by
              intro j t h
              rcases getElem?_concat_cases h with ⟨hlt, h⟩ | ⟨rfl, rfl⟩
              · rw [List.length_set] at hlt
                rcases getElem?_set_cases h with ⟨rfl, rfl, _⟩ | ⟨hne, h⟩
                · exact Or.inr (Or.inl ⟨by omega, rfl, rfl⟩)
                · exact Or.inr (Or.inr ⟨by omega, hne, h⟩)
              · rw [List.length_set]
                exact Or.inl ⟨rfl, rfl⟩
            refine ⟨rfl, ?_, ?_, ?_, inv.bound, ?_, ?_, ?_, ?_, ?_, ?_⟩
            · simp only [List.length_append, List.length_set]
              have := inv.lenGe; omega
            · intro j t h hj
              rcases hconcat j t h with ⟨rfl, rfl⟩ | ⟨_, rfl, rfl⟩ | ⟨_, _, h⟩
              · exact absurd hj (by have := inv.lenGe; omega)
              · rfl
              · exact inv.kindsLo j t h hj
            · intro j t h hj
              rcases hconcat j t h with ⟨rfl, rfl⟩ | ⟨_, rfl, rfl⟩ | ⟨_, _, h⟩
              · rfl
              · exact absurd hj (by omega)
              · exact inv.kindsHi j t h hj
            · intro j h hd
              rcases hconcat j _ hd with ⟨_, he⟩ | ⟨_, _, he⟩ | ⟨_, _, hd⟩
              · cases he
              · cases he
              · exact inv.doneMem j h hd
            · intro j k h h' hjk hdj hdk
              rcases hconcat j _ hdj with ⟨_, he⟩ | ⟨_, _, he⟩ | ⟨_, _, hdj⟩
              · cases he
              · cases he
              rcases hconcat k _ hdk with ⟨_, he⟩ | ⟨_, _, he⟩ | ⟨_, _, hdk⟩
              · cases he
              · cases he
              exact inv.doneDistinct j k h h' hjk hdj hdk
            · have hc := countP_set isOhFailed s.tasks i _
                (TaskSt.ohAwait s.proms.length) ht
              simp only [isOhFailed] at hc
              have hpre := inv.countBound
              have hind0 : (if s.openOperationPromise.isSome ∨ s.handles ≠ []
                  then 1 else 0) = 0 := by
                rw [hOp, hhe]; simp
              rw [hind0] at hpre
              simp only [failedCount] at hpre ⊢
              dsimp only
              have hsing : List.countP isOhFailed
                  [TaskSt.owAwaitOpen s.proms.length (s.proms.length + 1)] = 0 := rfl
              simp only [List.countP_append, hsing, List.length_append,
                Option.isSome_some, true_or, if_pos]
              simp only [List.length_cons, List.length_nil]
              omega
            · intro _
              simp
            · intro _
              simp
            · intro j q h
              simp
        · rename_i hlenne
          have hne : s.handles ≠ [] := by
            intro hcontra
            exact hlenne (by rw [hcontra]; rfl)
          obtain rfl : _ = s' := Option.some.inj hstep
          refine ⟨inv.closeNone, ?_, ?_, ?_, bound_setAdd inv.bound, ?_, ?_, ?_, ?_, ?_, ?_⟩
          · simp only [List.length_set]; exact inv.lenGe
          · intro j t h hj
            rcases getElem?_set_cases h with ⟨rfl, rfl, _⟩ | ⟨hnej, h⟩
            · rfl
            · exact inv.kindsLo j t h hj
          · intro j t h hj
            rcases getElem?_set_cases h with ⟨rfl, rfl, _⟩ | ⟨hnej, h⟩
            · omega
            · exact inv.kindsHi j t h hj
          · intro j h hd
            rcases getElem?_set_cases hd with ⟨rfl, he, _⟩ | ⟨hnej, hd⟩
            · obtain rfl : h = s.nextFreeDeviceHandle := by cases he; rfl
              exact mem_setAdd_self _ _
            · exact mem_setAdd_of_mem (inv.doneMem j h hd)
          · intro j k h h' hjk hdj hdk
            rcases getElem?_set_cases hdj with ⟨rfl, he, _⟩ | ⟨hnej, hdj2⟩
            · obtain rfl : h = s.nextFreeDeviceHandle := by cases he; rfl
              rcases getElem?_set_cases hdk with ⟨rfl, he', _⟩ | ⟨hnek, hdk2⟩
              · omega
              · have := inv.bound h' (inv.doneMem k h' hdk2)
                omega
            · rcases getElem?_set_cases hdk with ⟨rfl, he', _⟩ | ⟨hnek, hdk2⟩
              · obtain rfl : h' = s.nextFreeDeviceHandle := by cases he'; rfl
                have := inv.bound h (inv.doneMem j h hdj2)
                omega
              · exact inv.doneDistinct j k h h' hjk hdj2 hdk2
          · have hpre := inv.countBound
            have hind1 : (if s.openOperationPromise.isSome ∨ s.handles ≠ []
                then 1 else 0) = 1 := by simp [hne]
            rw [hind1] at hpre
            have hne' : setAdd s.handles s.nextFreeDeviceHandle ≠ [] :=
              setAdd_ne_nil _ _
            simp only [failedCount] at hpre ⊢
            dsimp only
            rw [countP_failed_set_same s.tasks i _ (TaskSt.ohDone s.nextFreeDeviceHandle) ht rfl rfl]
            have hind2 : (if s.openOperationPromise.isSome ∨
                setAdd s.handles s.nextFreeDeviceHandle ≠ [] then 1 else 0) = 1 := by
              simp [hne']
            rw [hind2]
            omega
          · intro _
            exact inv.handlesOpens hne
          · intro hsome
            exact inv.openOpOpens hsome
          · intro j q h
            rcases getElem?_set_cases h with ⟨rfl, he, _⟩ | ⟨hnej, h⟩
            · cases he
            · exact inv.awaitOpens j q h
      | ohAwait p =>
        have hiN : i < N := by
          by_contra hge
          have := inv.kindsHi i _ ht (by omega)
          simp [owKindB] at this
        dsimp only at hstep
        cases hp : s.proms[p]? with
        | none => rw [hp] at hstep; cases hstep
        | some ps =>
          rw [hp] at hstep
          cases ps with
          | pending => cases hstep
          | settled o =>
            cases o with
            | success =>
              obtain rfl : _ = s' := Option.some.inj hstep
              refine ⟨inv.closeNone, ?_, ?_, ?_, bound_setAdd inv.bound, ?_, ?_, ?_,
                ?_, ?_, ?_⟩
              · simp only [List.length_set]; exact inv.lenGe
              · intro j t h hj
                rcases getElem?_set_cases h with ⟨rfl, rfl, _⟩ | ⟨hnej, h⟩
                · rfl
                · exact inv.kindsLo j t h hj
              · intro j t h hj
                rcases getElem?_set_cases h with ⟨rfl, rfl, _⟩ | ⟨hnej, h⟩
                · omega
                · exact inv.kindsHi j t h hj
              · intro j h hd
                rcases getElem?_set_cases hd with ⟨rfl, he, _⟩ | ⟨hnej, hd⟩
                · obtain rfl : h = s.nextFreeDeviceHandle := by cases he; rfl
                  exact mem_setAdd_self _ _
                · exact mem_setAdd_of_mem (inv.doneMem j h hd)
              · intro j k h h' hjk hdj hdk
                rcases getElem?_set_cases hdj with ⟨rfl, he, _⟩ | ⟨hnej, hdj2⟩
                · obtain rfl : h = s.nextFreeDeviceHandle := by cases he; rfl
                  rcases getElem?_set_cases hdk with ⟨rfl, he', _⟩ | ⟨hnek, hdk2⟩
                  · omega
                  · have := inv.bound h' (inv.doneMem k h' hdk2)
                    omega
                · rcases getElem?_set_cases hdk with ⟨rfl, he', _⟩ | ⟨hnek, hdk2⟩
                  · obtain rfl : h' = s.nextFreeDeviceHandle := by cases he'; rfl
                    have := inv.bound h (inv.doneMem j h hdj2)
                    omega
                  · exact inv.doneDistinct j k h h' hjk hdj2 hdk2
              · have hfc : failedCount
                    { s with
                      openOperationPromise := none,
                      tasks := s.tasks.set i (TaskSt.ohDone s.nextFreeDeviceHandle),
                      handles := setAdd s.handles s.nextFreeDeviceHandle,
                      nextFreeDeviceHandle := s.nextFreeDeviceHandle + 1 } =
                    failedCount s := by
                  have := countP_set isOhFailed s.tasks i _
                    (TaskSt.ohDone s.nextFreeDeviceHandle) ht
                  simpa [failedCount, isOhFailed] using this
                rw [hfc]
                have hpre := inv.countBound
                have hne' : setAdd s.handles s.nextFreeDeviceHandle ≠ [] :=
                  setAdd_ne_nil _ _
                simp only [ne_eq, hne', not_false_eq_true, or_true, if_pos]
                split at hpre <;> omega
              · intro _
                exact inv.awaitOpens i p ht
              · intro hsome
                cases hsome
              · intro j q h
                rcases getElem?_set_cases h with ⟨rfl, he, _⟩ | ⟨hnej, h⟩
                · cases he
                · exact inv.awaitOpens j q h
            | failure e =>
              obtain rfl : _ = s' := Option.some.inj hstep
              refine ⟨inv.closeNone, ?_, ?_, ?_, inv.bound, ?_, ?_, ?_, ?_, ?_, ?_⟩
              · simp only [List.length_set]; exact inv.lenGe
              · intro j t h hj
                rcases getElem?_set_cases h with ⟨rfl, rfl, _⟩ | ⟨hnej, h⟩
                · rfl
                · exact inv.kindsLo j t h hj
              · intro j t h hj
                rcases getElem?_set_cases h with ⟨rfl, rfl, _⟩ | ⟨hnej, h⟩
                · omega
                · exact inv.kindsHi j t h hj
              · intro j h hd
                rcases getElem?_set_cases hd with ⟨rfl, he, _⟩ | ⟨hnej, hd⟩
                · cases he
                · exact inv.doneMem j h hd
              · intro j k h h' hjk hdj hdk
                rcases getElem?_set_cases hdj with ⟨rfl, he, _⟩ | ⟨hnej, hdj⟩
                · cases he
                rcases getElem?_set_cases hdk with ⟨rfl, he, _⟩ | ⟨hnek, hdk⟩
                · cases he
                exact inv.doneDistinct j k h h' hjk hdj hdk
              · have hpre := inv.countBound
                simp only [failedCount] at hpre ⊢
                dsimp only
                rw [countP_failed_set_incr s.tasks i _ (TaskSt.ohFailed (JsErr.hostErr e)) ht rfl rfl]
                split at hpre <;> split <;> omega
              · intro hne
                exact inv.handlesOpens hne
              · intro hsome
                cases hsome
              · intro j q h
                rcases getElem?_set_cases h with ⟨rfl, he, _⟩ | ⟨hnej, h⟩
                · cases he
                · exact inv.awaitOpens j q h
      | owAwaitOpen a b =>
        have hiNge : N ≤ i := by
          by_contra hlt
          have := inv.kindsLo i _ ht (by omega)
          simp [ohKindB] at this
        dsimp only at hstep
        cases hp : s.proms[b]? with
        | none => rw [hp] at hstep; cases hstep
        | some ps =>
          rw [hp] at hstep
          cases ps with
          | pending => cases hstep
          | settled o =>
            obtain rfl : _ = s' := Option.some.inj hstep
            refine ⟨inv.closeNone, ?_, ?_, ?_, inv.bound, ?_, ?_, ?_, ?_, ?_, ?_⟩
            · simp only [List.length_set]; exact inv.lenGe
            · intro j t h hj
              rcases getElem?_set_cases h with ⟨rfl, rfl, _⟩ | ⟨hnej, h⟩
              · omega
              · exact inv.kindsLo j t h hj
            · intro j t h hj
              rcases getElem?_set_cases h with ⟨rfl, rfl, _⟩ | ⟨hnej, h⟩
              · rfl
              · exact inv.kindsHi j t h hj
            · intro j h hd
              rcases getElem?_set_cases hd with ⟨rfl, he, _⟩ | ⟨hnej, hd⟩
              · cases he
              · exact inv.doneMem j h hd
            · intro j k h h' hjk hdj hdk
              rcases getElem?_set_cases hdj with ⟨rfl, he, _⟩ | ⟨hnej, hdj⟩
              · cases he
              rcases getElem?_set_cases hdk with ⟨rfl, he, _⟩ | ⟨hnek, hdk⟩
              · cases he
              exact inv.doneDistinct j k h h' hjk hdj hdk
            · have hfc : failedCount
                  { s with
                    proms := s.proms.set a (.settled o),
                    tasks := s.tasks.set i TaskSt.owDone } = failedCount s := by
                have := countP_set isOhFailed s.tasks i _ TaskSt.owDone ht
                simpa [failedCount, isOhFailed] using this
              rw [hfc]
              exact inv.countBound
            · intro hne
              exact inv.handlesOpens hne
            · intro hsome
              exact inv.openOpOpens hsome
            · intro j q h
              rcases getElem?_set_cases h with ⟨rfl, he, _⟩ | ⟨hnej, h⟩
              · cases he
              · exact inv.awaitOpens j q h

theorem invOpen_run {N : Nat} :
    ∀ (L : List SchedLabel) (s s' : DevSys),
      InvOpen N s → run s L = some s' → InvOpen N s' := by
  intro L
  induction L with
  | nil =>
    intro s s' inv hrun
    obtain rfl : s = s' := Option.some.inj hrun
    exact inv
  | cons l ls ih =>
    intro s s' inv hrun
    rw [run] at hrun
    cases hstep : step s l with
    | none => rw [hstep] at hrun; cases hrun
    | some s1 =>
      rw [hstep] at hrun
      exact ih s1 s' (invOpen_step inv hstep) hrun

/-- Claim C2: starting from a device with an empty handle set and no pending open
or close, N ≥ 1 concurrent `openDeviceHandle` requests — under EVERY
scheedule — yield handles that are all live (present in the handle set and
accepted by the handle validation used by transfers) for as long as no close
runs (first conjunct, which holds in every reachable state), pairwise
distinct (second conjunct), and, whenever all N requests have returned a
handle, exactly one physical host open was ever issued (third conjunct). -/
theorem c2_concurrent_opens (N n0 : Nat) (L : List SchedLabel) (s' : DevSys)
    (hN : 1 ≤ N) (hrun : run (initOpenSys N n0) L = some s') :
    (∀ (i h : Nat), s'.tasks[i]? = some (.ohDone h) →
      h ∈ s'.handles ∧ checkDeviceHandle s' h = .ok ()) ∧
    (∀ (i j h h' : Nat), i ≠ j → s'.tasks[i]? = some (.ohDone h) →
      s'.tasks[j]? = some (.ohDone h') → h ≠ h') ∧
    ((∀ i, i < N → ∃ h, s'.tasks[i]? = some (.ohDone h)) →
      s'.hostOpens.length = 1) := by
  have inv : InvOpen N s' := invOpen_run L _ s' (invOpen_init N n0) hrun
  refine ⟨?_, inv.doneDistinct, ?_⟩
  · intro i h hd
    have hmem := inv.doneMem i h hd
    exact ⟨hmem, by simp [checkDeviceHandle, hmem]⟩
  · intro hall
    have hfc0 : failedCount s' = 0 := by
      rw [failedCount, List.countP_eq_zero]
      intro a ha
      rw [List.mem_iff_getElem?] at ha
      obtain ⟨i, hi⟩ := ha
      by_cases hiN : i < N
      · obtain ⟨h, hdone⟩ := hall i hiN
        rw [hdone] at hi
        obtain rfl : TaskSt.ohDone h = a := Option.some.inj hi
        simp [isOhFailed]
      · have := inv.kindsHi i a hi (by omega)
        cases a <;> simp_all [owKindB, isOhFailed]
    have hne : s'.handles ≠ [] := by
      obtain ⟨h0, hd0⟩ := hall 0 (by omega)
      exact List.ne_nil_of_mem (inv.doneMem 0 h0 hd0)
    have hub := inv.countBound
    rw [hfc0] at hub
    have hind : (if s'.openOperationPromise.isSome ∨ s'.handles ≠ []
        then 1 else 0) = 1 := by simp [hne]
    rw [hind] at hub
    have hlb : s'.hostOpens.length ≠ 0 := by
      intro h0
      exact inv.handlesOpens hne (List.eq_nil_of_length_eq_zero h0)
    omega

/-- Claim C2 witness schedule: one `openDeviceHandle` request runs its prologue
(host open 1 issued), the host open succeeds, `openWebusbDevice` resolves the
pending-open promise, and the request resumes and returns handle 1. -/
def c2DemoTrace : List SchedLabel :=
  [.task 0, .env 1 .success, .task 1, .task 0]

def c2DemoFinal : DevSys :=
  { handles := [1], openOperationPromise := none, closeOperationPromise := none,
    nextFreeDeviceHandle := 2, proms := [.settled .success, .settled .success],
    hostOpens := [1], hostCloses := [], tasks := [.ohDone 1, .owDone] }

/-- Witness for `c2_concurrent_opens` at N = 1 on `c2DemoTrace`. -/
theorem c2_concurrent_opens_witness :
    c2DemoFinal.hostOpens.length = 1 ∧ 1 ∈ c2DemoFinal.handles :=
  ⟨(c2_concurrent_opens 1 1 c2DemoTrace c2DemoFinal (by decide) (by decide)).2.2
      (fun i hi => ⟨1, by
        have hi0 : i = 0 := by omega
        subst hi0
        decide⟩),
   ((c2_concurrent_opens 1 1 c2DemoTrace c2DemoFinal (by decide) (by decide)).1 0 1
      (by decide)).1⟩

end LibusbToWebusbAdaptor
